import Mathlib

/-!
Verification of piper: the batching publisher, the line parse helper and the
event sinks of the commands.

Shallow embedding of `internal/publisher.go`, `internal/helper.go`, and of the
option handling, event building and flushing of `cmd/egpipe`,
`cmd/eventbridge-pipe` and `cmd/splunk-pipe`.  Functions of the Go standard
library are modelled where their result matters (`bufio.Scanner`, `strings`,
`strconv`, `%.0f`); JSON, JMESPath, `net/url`, the HTTP client, the clock and
the uuid generator are parameters.

* A line as the sink reads it is the list of its runes; a batch is the
  `[][]byte` handed to `EventSink.FlushEvents`, read at the time of the call.
* A `[]byte` held by the program is a slice: a window of an array in memory.
  `scanner.Bytes()` is a slice of the scanner's buffer, and `addEvent` keeps
  it as it is, so what a cached line reads follows the buffer.
* A Go `error` is its message; `nil` is `none`.
* A `bufio.Scanner` is met by `Run` as the sequence of its `Scan` calls, each
  with the memory it leaves and the slice it hands out; `NewScanner` computes
  that sequence for a scanner over a `strings.Reader`, as the tests build it.
* The `context.Context` is consulted once per accepted line; it is the
  function telling, for the k-th such check (from 0), whether `ctx.Err()` is
  non-nil.
* The timer goroutine started when `FlushInterval != 0` runs `p.flush` under
  the publisher mutex, so its ticks interleave with the foreground loop only
  between the critical sections.  A schedule gives the number of ticks served
  in each gap.  Nothing stops the goroutine when `Run` returns: the gaps after
  a failed `addEvent` and after the final flush are served as well.  With
  `FlushInterval = 0` no goroutine exists and the schedule is never used.
  `Scan` itself runs outside the mutex; a tick is served before or after a
  `Scan`, never in the middle of one.
* Everything observable is recorded in a log of events: every token scanned
  and every `FlushEvents` call with its cache and result.
-/

namespace Piper

/-- One input line as the sink sees it: the runes of a `[]byte`. -/
abbrev Line := List Char

/-- The `cache [][]byte` argument of `FlushEvents`, as the sink reads it
during the call. -/
abbrev Batch := List Line

/-- A non-nil Go `error`, identified by its message. -/
abbrev Error := String

/-- Go `unicode.IsSpace`. -/
def isSpace (c : Char) : Bool :=
  (9 ≤ c.toNat && c.toNat ≤ 13) || c.toNat == 32 || c.toNat == 0x85 || c.toNat == 0xA0 ||
  c.toNat == 0x1680 || (0x2000 ≤ c.toNat && c.toNat ≤ 0x200A) || c.toNat == 0x2028 ||
  c.toNat == 0x2029 || c.toNat == 0x202F || c.toNat == 0x205F || c.toNat == 0x3000

/-- Go `bytes.TrimSpace`: drop leading and trailing white space. -/
def TrimSpace (b : Line) : Line :=
  ((b.dropWhile isSpace).reverse.dropWhile isSpace).reverse

/-- The test of `Run`'s loop, `len(bytes.TrimSpace(b)) == 0`. -/
def blank (b : Line) : Bool := (TrimSpace b).length == 0

/-- The byte arrays in memory, by number; a byte is written as the rune of
its value. -/
abbrev Mem := List (List Char)

/-- A `[]byte` value: a window of an array.  Two slices of one array share its
bytes: writing the array changes what both read. -/
structure Slice where
  arr : Nat
  off : Nat
  len : Nat
  deriving DecidableEq, Repr

/-- The bytes a slice reads in a memory. -/
def bytesOf (m : Mem) (s : Slice) : Line := ((m.getD s.arr []).drop s.off).take s.len

/-- Interface `EventSink`: the error `FlushEvents` returns, given the caches of
all earlier calls (on which the sink's own state depends) and the cache it is
handed now, each as read during its call. -/
abbrev EventSink := List Batch → Batch → Option Error

/-- The three places that call `Sink.FlushEvents`: `addEvent` when the cache is
full, the timer goroutine, and the flush after the loop of `Run`. -/
inductive Origin
  | size
  | tick
  | final
  deriving DecidableEq, Repr

/-- What a run does that can be seen from outside: a token scanned, with the
bytes it reads when `Scan` returns, and a `FlushEvents` call, with the bytes
the cache reads during the call and the result. -/
inductive Event
  | scan (line : Line)
  | flushEvents (origin : Origin) (cache : Batch) (res : Option Error)
  deriving DecidableEq, Repr

/-- Struct `Publisher` (the mutex is implicit: every operation below is one
critical section).  The cache holds the slices it was given, not copies. -/
structure Publisher where
  MaxQueueSize : Int
  Sink : EventSink
  FlushInterval : Int
  cache : List Slice
  running : Bool

/-- The publisher and the memory, together with the locals of `Run` shared with
the timer goroutine and the log of events so far. -/
structure World where
  p : Publisher
  mem : Mem
  log : List Event
  flushErr : Option Error
  ticking : Bool

/-- The caches of the `FlushEvents` calls of a log, in call order. -/
def batches : List Event → List Batch
  | [] => []
  | Event.scan _ :: es => batches es
  | Event.flushEvents _ b _ :: es => b :: batches es

/-- The `FlushEvents` calls of a log, in call order. -/
def sinkCalls : List Event → List Event
  | [] => []
  | Event.scan _ :: es => sinkCalls es
  | Event.flushEvents o b r :: es => Event.flushEvents o b r :: sinkCalls es

/-- The tokens scanned in a log, in order. -/
def scanned : List Event → List Line
  | [] => []
  | Event.scan l :: es => l :: scanned es
  | Event.flushEvents _ _ _ :: es => scanned es

/-- What the lines of the cache read now. -/
def cacheBytes (w : World) : Batch := w.p.cache.map (bytesOf w.mem)

/-- The call `p.Sink.FlushEvents(ctx, p.cache)`. -/
def FlushEvents (w : World) (o : Origin) : Option Error × World :=
  (w.p.Sink (batches w.log) (cacheBytes w),
   { w with log := w.log ++
      [Event.flushEvents o (cacheBytes w) (w.p.Sink (batches w.log) (cacheBytes w))] })

/-- Method `Publisher.addEvent`: `data` is appended as it is, a slice.
`resetTicker` only re-arms the ticker and changes nothing of the state. -/
def addEvent (w : World) (data : Slice) : Option Error × World :=
  let w1 : World := { w with p := { w.p with cache := w.p.cache ++ [data] } }
  if w1.p.cache.length = 0 ∨ (w1.p.cache.length : Int) < w1.p.MaxQueueSize then
    (none, w1)
  else
    match FlushEvents w1 Origin.size with
    | (some err, w2) => (some err, w2)
    | (none, w2) => (none, { w2 with p := { w2.p with cache := [] } })

/-- Method `Publisher.flush`; the origin only labels the log entry. -/
def flush (w : World) (o : Origin) : Option Error × World :=
  FlushEvents w o

/-- One iteration of the timer goroutine `for range ticker.C`. -/
def tick (w : World) : World :=
  if w.ticking then
    match flush w Origin.tick with
    | (some err2, w1) => { w1 with flushErr := some err2, ticking := false }
    | (none, w1) => w1
  else w

/-- The given number of timer ticks in a row. -/
def ticks : Nat → World → World
  | 0, w => w
  | n + 1, w => ticks n (tick w)

/-- How the loop `for scanner.Scan()` of `Run` is left. -/
inductive LoopExit
  | ret (err : Error)
  | brk
  | eof
  deriving DecidableEq, Repr

/-- A `bufio.Scanner` with its source, as `Run` meets it: the memory before the
first `Scan`; for each `Scan` that returns true, the memory after the call and
the slice `Bytes` returns (a `Scan` may write bytes that earlier slices read);
the memory after the `Scan` that returns false; what `Err` reports then; and
what `Err` reports when asked after the given number of tokens while `Scan`
has not yet returned false. -/
structure Scanner where
  mem : Mem
  steps : List (Mem × Slice)
  last : Mem
  err : Option Error
  early : Nat → Option Error

/-- The bytes of the token of a step, as `Bytes` reads them when `Scan` has
returned. -/
def tokenOf (step : Mem × Slice) : Line := bytesOf step.1 step.2

/-- The number of steps whose token `Run` accepts, as it is not blank. -/
def accepted (steps : List (Mem × Slice)) : Nat :=
  (steps.filter fun step => !blank (tokenOf step)).length

/-- The loop of `Run`, up to the `Scan` that returns false.  The first counter
is the number of lines accepted so far, the second the number of gaps passed
so far: the timer goroutine can run before a `Scan`, between `Scan` and
`addEvent`, and after `addEvent`, also when `addEvent` has failed and `Run`
returns; the schedule gives the number of ticks served in each gap. -/
def scanLoop (ctx : Nat → Bool) (sched : Nat → Nat) :
    List (Mem × Slice) → Nat → Nat → World → LoopExit × Nat × Nat × World
  | [], k, g, w => (LoopExit.eof, k, g, w)
  | step :: rest, k, g, w =>
    if blank (tokenOf step) then
      scanLoop ctx sched rest k (g + 1)
        { ticks (sched g) w with
          mem := step.1,
          log := (ticks (sched g) w).log ++ [Event.scan (tokenOf step)] }
    else
      match addEvent (ticks (sched (g + 1))
          { ticks (sched g) w with
            mem := step.1,
            log := (ticks (sched g) w).log ++ [Event.scan (tokenOf step)] }) step.2 with
      | (some err, w1) => (LoopExit.ret err, k, g + 3, ticks (sched (g + 2)) w1)
      | (none, w1) =>
        match (ticks (sched (g + 2)) w1).flushErr with
        | some err => (LoopExit.ret err, k, g + 3, ticks (sched (g + 2)) w1)
        | none =>
          if ctx k then (LoopExit.brk, k + 1, g + 3, ticks (sched (g + 2)) w1)
          else scanLoop ctx sched rest (k + 1) (g + 3) (ticks (sched (g + 2)) w1)

/-- What `Run` returns and the publisher it leaves, with the log of the run;
the log goes on for the ticks served after the last step of `Run`. -/
structure RunResult where
  err : Option Error
  p : Publisher
  log : List Event

/-- Method `Publisher.Run`.  At the end of the input the timer can run before
the `Scan` that returns false, which leaves its own memory; and after the loop
the timer can run before the final flush and after it. -/
def Run (p : Publisher) (ctx : Nat → Bool) (sched : Nat → Nat) (scanner : Scanner) : RunResult :=
  if p.running then
    ⟨some "already running", p, []⟩
  else
    match scanLoop ctx sched scanner.steps 0 0
        ⟨{ p with running := true }, scanner.mem, [], none, decide (p.FlushInterval ≠ 0)⟩ with
    | (LoopExit.ret err, _, _, w1) => ⟨some err, { w1.p with running := false }, w1.log⟩
    | (LoopExit.brk, _, g, w1) =>
      match flush (ticks (sched g) w1) Origin.final with
      | (some err, w2) =>
        ⟨some err, { w2.p with running := false }, (ticks (sched (g + 1)) w2).log⟩
      | (none, w2) =>
        ⟨scanner.early (scanned w2.log).length, { w2.p with running := false },
          (ticks (sched (g + 1)) w2).log⟩
    | (LoopExit.eof, _, g, w1) =>
      match flush (ticks (sched (g + 1)) { ticks (sched g) w1 with mem := scanner.last })
          Origin.final with
      | (some err, w2) =>
        ⟨some err, { w2.p with running := false }, (ticks (sched (g + 2)) w2).log⟩
      | (none, w2) =>
        ⟨scanner.err, { w2.p with running := false }, (ticks (sched (g + 2)) w2).log⟩

/-- A sink whose `FlushEvents` always returns nil. -/
def okSink : EventSink := fun _ _ => none

/-- A sink whose `FlushEvents` always fails. -/
def failingSink : EventSink := fun _ _ => some "boom"

/-- A sink whose `FlushEvents` fails on its first call and returns nil from
then on. -/
def flakySink : EventSink := fun earlier _ => if earlier = [] then some "boom" else none

/-- A fresh publisher as the commands build it. -/
def newPublisher (n : Int) (sink : EventSink) (interval : Int) : Publisher :=
  ⟨n, sink, interval, [], false⟩

/-! ## `bufio.Scanner` over a `strings.Reader`, with `bufio.ScanLines` -/

/-- The fields of a `bufio.Scanner` that `Scan` uses: `r`, the unread rest of
the `strings.Reader`; `buf`, the number of the array it is; `start`; `end`;
and `err`.  The split function is `ScanLines` and `maxTokenSize` is
`MaxScanTokenSize`, as `bufio.NewScanner` sets them. -/
structure Bufio where
  r : List Char
  buf : Nat
  start : Nat
  endIdx : Nat
  err : Option Error
  deriving DecidableEq, Repr

/-- Constant `startBufSize` of `bufio`. -/
def startBufSize : Nat := 4096

/-- Constant `MaxScanTokenSize` of `bufio`. -/
def MaxScanTokenSize : Nat := 64 * 1024

/-- Variable `io.EOF`. -/
def io.EOF : Error := "EOF"

/-- Variable `ErrTooLong` of `bufio`. -/
def ErrTooLong : Error := "bufio.Scanner: token too long"

/-- Method `Scanner.setErr` of `bufio`. -/
def Bufio.setErr (s : Bufio) (err : Error) : Bufio :=
  if s.err = none ∨ s.err = some io.EOF then { s with err := some err } else s

/-- Method `Scanner.Err` of `bufio`. -/
def Bufio.Err (s : Bufio) : Option Error :=
  if s.err = some io.EOF then none else s.err

/-- Go `copy(dst[i:], src)` on an array, for a source that fits. -/
def copyAt (dst : List Char) (i : Nat) (src : List Char) : List Char :=
  dst.take i ++ src ++ dst.drop (i + src.length)

/-- Function `dropCR` of `bufio`: the length without a final carriage return. -/
def dropCR (data : List Char) : Nat :=
  if data.getLast? = some '\r' then data.length - 1 else data.length

/-- Function `bufio.ScanLines`: the advance and, when there is a token, its
length; the token starts where the data start.  It never returns an error. -/
def ScanLines (data : List Char) (atEOF : Bool) : Nat × Option Nat :=
  if atEOF && data.length == 0 then (0, none)
  else if data.contains '\n' then
    ((data.takeWhile fun c => c != '\n').length + 1,
      some (dropCR (data.takeWhile fun c => c != '\n')))
  else if atEOF then (data.length, some (dropCR data))
  else (0, none)

/-- Variable `io.ErrNoProgress`. -/
def io.ErrNoProgress : Error := "multiple Read calls return no data or error"

/-- The call of the split function in `Scan`, made when there are data or an
error is set: `s.split(s.buf[s.start:s.end], s.err != nil)`. -/
def Bufio.split (s : Bufio) (m : Mem) : Nat × Option Nat :=
  if s.start < s.endIdx ∨ s.err ≠ none then
    ScanLines (((m.getD s.buf []).drop s.start).take (s.endIdx - s.start)) (decide (s.err ≠ none))
  else (0, none)

/-- The block of `Scan` that shifts the data to the beginning of the buffer
when there is a lot of empty space or space is needed. -/
def Bufio.shift (s : Bufio) (m : Mem) : Bufio × Mem :=
  if 0 < s.start ∧ (s.endIdx = (m.getD s.buf []).length ∨ (m.getD s.buf []).length / 2 < s.start)
  then
    ({ s with start := 0, endIdx := s.endIdx - s.start },
     m.set s.buf (copyAt (m.getD s.buf []) 0
       (((m.getD s.buf []).drop s.start).take (s.endIdx - s.start))))
  else (s, m)

/-- The block of `Scan` that resizes a full buffer, once it is known not to
have reached `maxTokenSize`: a new array of twice the size, `startBufSize` at
the first time, at most `maxTokenSize`, with the data copied to its front. -/
def Bufio.grow (s : Bufio) (m : Mem) : Bufio × Mem :=
  if s.endIdx = (m.getD s.buf []).length then
    ({ s with buf := m.length, start := 0, endIdx := s.endIdx - s.start },
     m ++ [copyAt
       (List.replicate
         (min (if (m.getD s.buf []).length * 2 = 0 then startBufSize
           else (m.getD s.buf []).length * 2) MaxScanTokenSize) (Char.ofNat 0))
       0 (((m.getD s.buf []).drop s.start).take (s.endIdx - s.start))])
  else (s, m)

/-- The block of `Scan` that reads into `s.buf[s.end:len(s.buf)]` from the
`strings.Reader`: at the end of the input `Read` returns `io.EOF`; else it
copies as many bytes as fit, and were there no room at all it would return 0
bytes every time, until `Scan` gives up with `io.ErrNoProgress`. -/
def Bufio.read (s : Bufio) (m : Mem) : Bufio × Mem :=
  if s.r = [] then (s.setErr io.EOF, m)
  else if (m.getD s.buf []).length - s.endIdx = 0 then (s.setErr io.ErrNoProgress, m)
  else
    ({ s with
       r := s.r.drop (min ((m.getD s.buf []).length - s.endIdx) s.r.length),
       endIdx := s.endIdx + min ((m.getD s.buf []).length - s.endIdx) s.r.length },
     m.set s.buf (copyAt (m.getD s.buf []) s.endIdx
       (s.r.take (min ((m.getD s.buf []).length - s.endIdx) s.r.length))))

/-- Method `Scanner.Scan` of `bufio`: the slice `Bytes` returns when `Scan`
returns true, with the scanner and the memory after the call.  The first
argument bounds the number of turns of its loop; the result is `none` when
that bound is too small.  `ScanLines` returns no error, its advance is in
range, and it returns no token without advancing. -/
def Scan : Nat → Bufio → Mem → Option (Option Slice × Bufio × Mem)
  | 0, _, _ => none
  | fuel + 1, s, m =>
    -- see if we can get a token with what we already have
    match s.split m with
    | (advance, some n) =>
      some (some ⟨s.buf, s.start, n⟩, { s with start := s.start + advance }, m)
    | (advance, none) =>
      -- we cannot generate a token with what we are holding
      if s.err ≠ none then some (none, { s with start := 0, endIdx := 0 }, m)
      else
        match Bufio.shift { s with start := s.start + advance } m with
        | (s1, m1) =>
          if s1.endIdx = (m1.getD s1.buf []).length ∧
              MaxScanTokenSize ≤ (m1.getD s1.buf []).length then
            some (none, s1.setErr ErrTooLong, m1)
          else
            match Bufio.grow s1 m1 with
            | (s2, m2) =>
              match Bufio.read s2 m2 with
              | (s3, m3) => Scan fuel s3 m3

/-- The calls of `Scan` until it returns false: the steps, and the scanner and
the memory at the end.  Every turn of the loop of `Scan` that does not return reads a byte
or sets an error, and every `Scan` that returns true advances by a byte, so
the number of bytes bounds both; the result is `none` when the first argument,
the bound on the number of calls, is too small. -/
def scanAll : Nat → Bufio → Mem → Option (List (Mem × Slice) × Bufio × Mem)
  | 0, _, _ => none
  | fuel + 1, s, m =>
    match Scan (s.r.length + 2) s m with
    | none => none
    | some (none, s1, m1) => some ([], s1, m1)
    | some (some tok, s1, m1) =>
      match scanAll fuel s1 m1 with
      | none => none
      | some (steps, s2, m2) => some ((m1, tok) :: steps, s2, m2)

/-- Function `bufio.NewScanner` over `strings.NewReader(input)`, with the
calls of `Scan` that `Run` will make.  The bound on the number of calls is
never met (`NewScanner_ends`). -/
def NewScanner (input : List Char) : Scanner :=
  match scanAll (input.length + 1) ⟨input, 0, 0, 0, none⟩ [[]] with
  | none => ⟨[[]], [], [[]], some "out of fuel", fun _ => none⟩
  | some (steps, s, m) => ⟨[[]], steps, m, s.Err, fun _ => none⟩

/-- Go `strings.Join(lines, "\n")`. -/
def joinLines (lines : List Line) : List Char := List.intercalate ['\n'] lines

/-- The scanner of the tests: `bufio.NewScanner(strings.NewReader(strings.Join(lines, "\n")))`. -/
def scannerOf (lines : List Line) : Scanner := NewScanner (joinLines lines)

/-- The bytes of the tokens of a scanner, each as read when its `Scan`
returned. -/
def Scanner.tokens (sc : Scanner) : List Line := sc.steps.map tokenOf


/-- Ten lines of 500 bytes each, of the letters `a` to `j`, every line ended by
a newline: 5010 bytes of input. -/
def tenLines : List Char :=
  (['a', 'b', 'c', 'd', 'e', 'f', 'g', 'h', 'i', 'j'].map
    fun c => List.replicate 500 c ++ ['\n']).flatten

/-- Three lines, of 3000 bytes `a`, of 3000 bytes `b`, and `c`, every line
ended by a newline. -/
def threeLines : List Char :=
  List.replicate 3000 'a' ++ ['\n'] ++ List.replicate 3000 'b' ++ ['\n', 'c', '\n']

/-- Three lines: `x`, 2050 bytes `a`, and ` y` with no newline after it. -/
def shortLongShort : List Char :=
  ['x', '\n'] ++ List.replicate 2050 'a' ++ ['\n', ' ', 'y']

/-! ## `internal/helper.go` -/

/-- A Go `float64`: a finite value of magnitude `mant * 2 ^ exp` with its sign
bit (negative zero is `finite true 0 0`), an infinity with its sign, or a NaN. -/
inductive Float64
  | finite (neg : Bool) (mant : Nat) (exp : Int)
  | inf (neg : Bool)
  | nan
  deriving DecidableEq, Repr

/-- The `float64` that holds the given integer (exactly, when the integer is
one a `float64` can hold). -/
def Float64.ofInt (n : Int) : Float64 := Float64.finite (decide (n < 0)) n.natAbs 0

/-- The magnitude of the finite `float64` with the given mantissa and exponent. -/
def Float64.magnitude (mant : Nat) (exp : Int) : Rat := (mant : Rat) * (2 : Rat) ^ exp

/-- The value of an `interface{}` holding decoded JSON or a query result; `nil`
is the nil interface (JSON `null`). -/
inductive Value
  | nil
  | bool (b : Bool)
  | float64 (v : Float64)
  | str (s : String)
  | array (xs : List Value)
  | object (kv : List (String × Value))

/-- The test `iface == nil`. -/
def Value.isNil : Value → Bool
  | Value.nil => true
  | _ => false

/-- A compiled `*jmespath.JMESPath`, identified with its `Search` method. -/
abbrev JMESPath := Value → Except Error Value

/-- The library functions `helper.go` calls: `json.Unmarshal` into an
`interface{}`, `jmespath.Compile`, and `fmt.Sprintf` with the verbs `%.0f` and
`%v`. -/
structure Lib where
  Unmarshal : Line → Except Error Value
  Compile : String → Except Error JMESPath
  Sprintf0f : Float64 → String
  Sprintfv : Value → String

/-- Constant `jmespathPrefix`. -/
def jmespathPrefix : String := "jp:"

/-- Go `strings.HasPrefix`. -/
def HasPrefix (s pre : String) : Bool := pre.toList.isPrefixOf s.toList

/-- Go `strings.TrimPrefix`. -/
def TrimPrefix (s pre : String) : String :=
  if HasPrefix s pre then String.mk (s.toList.drop pre.toList.length) else s

/-- Struct `LineParseHelper`.  A Go map is the function from its keys to their
values, a missing key giving the zero value; a nil map and an empty map are the
same function. -/
structure LineParseHelper where
  optDefs : String → String
  jmespaths : String → Option JMESPath

/-- Function `NewLineParseHelper`. -/
def NewLineParseHelper (optDefs : String → String) : LineParseHelper :=
  ⟨optDefs, fun _ => none⟩

/-- Method `LineParseHelper.jmespath`: the query, the error, and the helper
afterwards (pointer receiver). -/
def LineParseHelper.jmespath (lib : Lib) (c : LineParseHelper) (name val : String) :
    Option JMESPath × Option Error × LineParseHelper :=
  if !HasPrefix val jmespathPrefix then (none, none, c)
  else
    match c.jmespaths name with
    | some jp => (some jp, none, c)
    | none =>
      match lib.Compile (TrimPrefix val jmespathPrefix) with
      | Except.error err => (none, some err, c)
      | Except.ok jp =>
        (some jp, none, { c with jmespaths := fun n => if n = name then some jp else c.jmespaths n })

/-- Struct `LineData`. -/
structure LineData where
  data : Line
  iface : Value

/-- Function `NewLineData`. -/
def NewLineData (data : Line) : LineData := ⟨data, Value.nil⟩

/-- What `unmarshalled` returns, with the receiver as the method leaves it and
the number of `json.Unmarshal` calls it made. -/
structure Unmarshalled where
  val : Value
  err : Option Error
  l : LineData
  parses : Nat

/-- Method `LineData.unmarshalled`.  Its receiver `l` is a value, so the
`LineData` in field `l` of the result is the method's own copy. -/
def LineData.unmarshalled (lib : Lib) (l : LineData) : Unmarshalled :=
  if l.iface.isNil then
    match lib.Unmarshal l.data with
    | Except.error err => ⟨Value.nil, some err, l, 1⟩
    | Except.ok v => ⟨v, none, { l with iface := v }, 1⟩
  else ⟨l.iface, none, l, 0⟩

/-- Function `jmespathString`. -/
def jmespathString (lib : Lib) (jp : JMESPath) (data : Value) : String × Option Error :=
  match jp data with
  | Except.error err => ("", some err)
  | Except.ok (Value.str val) => (val, none)
  | Except.ok (Value.float64 val) => (lib.Sprintf0f val, none)
  | Except.ok val => (lib.Sprintfv val, none)

/-- What `GetVal` returns, with the helper and the caller's `LineData` as the
call leaves them and the number of `json.Unmarshal` calls it made. -/
structure GetValResult where
  val : String
  err : Option Error
  c : LineParseHelper
  data : LineData
  parses : Nat

/-- Method `LineParseHelper.GetVal`.  `data` is a `*LineData`; the call
`data.unmarshalled()` passes `*data` by value, so the caller's `LineData` is
the one it was before.  A nil query with a nil error cannot come back from
`jmespath` here, since `optDef` has the prefix; Go would panic on it. -/
def LineParseHelper.GetVal (lib : Lib) (c : LineParseHelper) (valName : String)
    (data : LineData) : GetValResult :=
  let optDef := if c.optDefs valName = "" then valName else c.optDefs valName
  if HasPrefix optDef jmespathPrefix then
    match c.jmespath lib valName optDef with
    | (_, some err, c1) => ⟨"", some err, c1, data, 0⟩
    | (none, none, c1) => ⟨"", some "invalid memory address or nil pointer dereference", c1, data, 0⟩
    | (some jp, none, c1) =>
      match (data.unmarshalled lib).err with
      | some err => ⟨"", some err, c1, data, (data.unmarshalled lib).parses⟩
      | none =>
        ⟨(jmespathString lib jp (data.unmarshalled lib).val).1,
         (jmespathString lib jp (data.unmarshalled lib).val).2, c1, data,
         (data.unmarshalled lib).parses⟩
  else ⟨optDef, none, c, data, 0⟩

/-- Sample library: every line decodes to the same object, every query
compiles and returns its own text. -/
def sampleLib : Lib :=
  ⟨fun _ => Except.ok (Value.object [("id", Value.str "foo")]),
   fun q => Except.ok (fun _ => Except.ok (Value.str q)),
   fun _ => "0", fun _ => "<nil>"⟩

/-- Sample library whose `json.Unmarshal` rejects every line. -/
def strictLib : Lib :=
  ⟨fun _ => Except.error "invalid character", fun q => Except.ok (fun _ => Except.ok (Value.str q)),
   fun _ => "0", fun _ => "<nil>"⟩

/-- Option definitions given as a list of pairs. -/
def optDefsOf (kv : List (String × String)) : String → String :=
  fun n => ((kv.find? fun e => e.1 == n).map Prod.snd).getD ""


/-! ## Predicates used in the statements -/

/-- Every `FlushEvents` call of the log that failed was made by the timer. -/
def NoFail (log : List Event) : Prop :=
  ∀ o b e, Event.flushEvents o b (some e) ∈ log → o = Origin.tick

/-- The events are calls of the timer only, each handing the given batch to
the sink. -/
def Resent (b : Batch) (post : List Event) : Prop :=
  ∀ ev ∈ post, ∃ r, ev = Event.flushEvents Origin.tick b r

/-- The log holds no failed call of `addEvent` or of the final flush, or it
holds one such call, whose error is the given result, followed only by calls
of the timer that hand the same batch to the sink again. -/
def Ended (err : Option Error) (log : List Event) : Prop :=
  NoFail log ∨
    ∃ l o b e post, log = l ++ Event.flushEvents o b (some e) :: post ∧ NoFail l ∧
      err = some e ∧ Resent b post

/-- No timer goroutine runs and the log holds no call of the timer. -/
structure Off (w : World) : Prop where
  ticking : w.ticking = false
  log : ∀ b r, Event.flushEvents Origin.tick b r ∉ w.log

/-- The maximum size is `N`, the cache is below it, and no cache handed to the
sink so far was longer than `N`. -/
structure Bounded (N : Nat) (w : World) : Prop where
  size : w.p.MaxQueueSize = (N : Int)
  cache : w.p.cache.length < N
  sent : ∀ b ∈ batches w.log, b.length ≤ N

/-- As `Bounded`, the cache being at most at the maximum size. -/
structure BoundedLe (N : Nat) (w : World) : Prop where
  size : w.p.MaxQueueSize = (N : Int)
  cache : w.p.cache.length ≤ N
  sent : ∀ b ∈ batches w.log, b.length ≤ N

/-! ## Standard library functions the commands call -/

/-- Go `strings.TrimSpace`. -/
def strings.TrimSpace (s : String) : String := String.mk (Piper.TrimSpace s.toList)

/-- Go `strings.Contains`. -/
def strings.Contains (s substr : String) : Bool :=
  s.toList.tails.any fun t => substr.toList.isPrefixOf t

/-- Go `strings.SplitN(s, ":", 2)`: the string itself when it holds no colon,
else the text before its first colon and the text after that colon. -/
def strings.SplitN2 (s : String) : List String :=
  match s.toList.span (fun c => c != ':') with
  | (_, []) => [s]
  | (before, _ :: after) => [String.mk before, String.mk after]

/-- The decimal digits of a number, least significant first; the first
argument bounds their number. -/
def digitsRev : Nat → Nat → List Nat
  | 0, _ => []
  | fuel + 1, n => if n < 10 then [n] else (n % 10) :: digitsRev fuel (n / 10)

/-- The character of a decimal digit. -/
def digitChar (d : Nat) : Char := Char.ofNat (48 + d)

/-- Go `strconv.FormatUint(n, 10)`, as runes. -/
def formatUint (n : Nat) : List Char := (digitsRev (n + 1) n).reverse.map digitChar

/-- Go `strconv.FormatInt(n, 10)`, as runes. -/
def formatInt (v : Int) : List Char :=
  if v < 0 then '-' :: formatUint v.natAbs else formatUint v.natAbs

/-- Go `strconv.FormatInt(n, 10)`, also the rendering of the verb `%d`. -/
def strconv.FormatInt (v : Int) : String := String.mk (formatInt v)

/-- Whether a rune is one of `0` to `9`. -/
def isDigit (c : Char) : Bool := 48 ≤ c.toNat && c.toNat ≤ 57

deriving instance DecidableEq for Except

/-- The digit loop of Go `strconv.ParseUint(s, 10, 64)`: a rune that is no
digit is a syntax error, a value that does not fit 64 bits a range error.
Error messages are abbreviated to their kind. -/
def parseUintLoop : List Char → Nat → Except Error Nat
  | [], n => Except.ok n
  | c :: cs, n =>
    if !isDigit c then Except.error "invalid syntax"
    else if 2 ^ 64 ≤ n * 10 + (c.toNat - 48) then Except.error "value out of range"
    else parseUintLoop cs (n * 10 + (c.toNat - 48))

/-- Go `strconv.ParseUint(s, 10, 64)`. -/
def ParseUint (s : List Char) : Except Error Nat :=
  if s = [] then Except.error "invalid syntax" else parseUintLoop s 0

/-- The part of Go `strconv.ParseInt(s, 10, 64)` after the sign. -/
def parseSigned (neg : Bool) (s : List Char) : Except Error Int :=
  match ParseUint s with
  | Except.error err => Except.error err
  | Except.ok un =>
    if neg then
      if 2 ^ 63 < un then Except.error "value out of range" else Except.ok (-(un : Int))
    else
      if 2 ^ 63 ≤ un then Except.error "value out of range" else Except.ok (un : Int)

/-- Go `strconv.ParseInt(s, 10, 64)`. -/
def strconv.ParseInt (s : String) : Except Error Int :=
  match s.toList with
  | [] => Except.error "invalid syntax"
  | c :: r =>
    if c = '+' then parseSigned false r
    else if c = '-' then parseSigned true r
    else parseSigned false (c :: r)

/-- The result of an `int64` operation whose exact value is the argument. -/
def wrapInt64 (x : Int) : Int := (x + 2 ^ 63) % 2 ^ 64 - 2 ^ 63

/-- The integer nearest to the fraction `num / den`, the even one of the two
when it lies halfway between two integers. -/
def roundHalfEven (num den : Nat) : Nat :=
  if 2 * (num % den) < den then num / den
  else if den < 2 * (num % den) then num / den + 1
  else if (num / den) % 2 = 0 then num / den
  else num / den + 1

/-- The value of a numeral of decimal digits. -/
def decimalValue (s : List Char) : Nat := s.foldl (fun a c => a * 10 + (c.toNat - 48)) 0

/-- Go `fmt.Sprintf("%.0f", v)`: `NaN`, `+Inf` and `-Inf` for the values that
are no numbers; for a finite value the sign, when the sign bit is set (also on
a zero), and the decimal digits of the integer nearest to the exact magnitude,
ties going to the even integer. -/
def fmt.Sprintf0f : Float64 → String
  | Float64.nan => "NaN"
  | Float64.inf false => "+Inf"
  | Float64.inf true => "-Inf"
  | Float64.finite neg mant exp =>
    String.mk ((if neg then ['-'] else []) ++
      formatUint (roundHalfEven (mant * 2 ^ exp.toNat) (2 ^ (-exp).toNat)))

/-- A `time.Time`: the instant `sec` seconds and `nsec` nanoseconds after the
Unix epoch, as `time.Unix(sec, nsec)` builds it. -/
structure Time where
  sec : Int
  nsec : Int
  deriving DecidableEq, Repr

/-- What the commands take from their environment: the k-th reading of the
clock (`time.Now()`), the k-th `uuid.New().String()`, the rendering
`t.UTC().Format(time.RFC3339Nano)`, and the verb `%q`. -/
structure Sys where
  Now : Nat → Time
  UUID : Nat → String
  Format : Time → String
  Quote : String → String

/-- A `url.URL`: the fields the commands read or write, and the others. -/
structure URL where
  Scheme : String
  Host : String
  Path : String
  RawQuery : String
  Rest : String
  deriving DecidableEq, Repr

/-- A `url.Values`: keys with their values. -/
abbrev Values := List (String × List String)

/-- Method `url.Values.Get`. -/
def Values.Get (q : Values) (key : String) : String :=
  match q.find? fun e => e.1 == key with
  | some (_, v :: _) => v
  | _ => ""

/-- Method `url.Values.Set`. -/
def Values.Set (q : Values) (key value : String) : Values :=
  (q.filter fun e => e.1 != key) ++ [(key, [value])]

/-- Package `net/url`: `url.Parse`, `(*URL).String` (here `URLString`),
`(*URL).Query` and `Values.Encode`. -/
structure NetURL where
  Parse : String → Except Error URL
  URLString : URL → String
  Query : URL → Values
  Encode : Values → String

/-- An `http.Header`, as the sequence of its `Set` calls. -/
abbrev Header := List (String × String)

/-- An `eventBuilder` of a command together with the number of clock readings
and of uuids taken so far. -/
structure Builder where
  parseHelper : LineParseHelper
  clock : Nat
  uuids : Nat

/-- The loop `for _, hdr := range c.Header` of `cliOptions.eventSink`, the same
in egpipe and splunk-pipe. -/
def headerLoop (sys : Sys) : List String → Header → Except Error Header
  | [], header => Except.ok header
  | hdr :: rest, header =>
    match strings.SplitN2 hdr with
    | [name, value] =>
      headerLoop sys rest (header ++ [(strings.TrimSpace name, strings.TrimSpace value)])
    | _ => Except.error ("invalid header " ++ sys.Quote hdr)

/-! ## `cmd/egpipe/egpipe.go` -/

namespace Egpipe

/-- Struct `cliOptions` of egpipe. -/
structure cliOptions where
  TopicEndpoint : String
  ID : String
  Subject : String
  EventType : String
  EventTime : String
  Header : List String
  DataVersion : String
  BatchSize : Int
  FlushInterval : Int

/-- Method `cliOptions.url` of egpipe. -/
def cliOptions.url (net : NetURL) (c : cliOptions) : Except Error String :=
  match net.Parse (if !strings.Contains c.TopicEndpoint "://" then "https://" ++ c.TopicEndpoint
      else c.TopicEndpoint) with
  | Except.error err => Except.error err
  | Except.ok pURL =>
    Except.ok (net.URLString
      { (if pURL.Path = "" then { pURL with Path := "api/events" } else pURL) with
        RawQuery :=
          if (net.Query (if pURL.Path = "" then { pURL with Path := "api/events" } else pURL)).Get
              "api-version" = "" then
            net.Encode ((net.Query
              (if pURL.Path = "" then { pURL with Path := "api/events" } else pURL)).Set
                "api-version" "2018-01-01")
          else
            net.Encode (net.Query
              (if pURL.Path = "" then { pURL with Path := "api/events" } else pURL)) })

/-- Struct `eventSink` of egpipe; the HTTP client is a parameter of
`FlushEvents`. -/
structure eventSink where
  reqHeader : Header
  endpoint : String
  builder : Builder

/-- Method `cliOptions.eventSink` of egpipe. -/
def cliOptions.eventSink (sys : Sys) (net : NetURL) (c : cliOptions) : Except Error eventSink :=
  match headerLoop sys c.Header [] with
  | Except.error err => Except.error err
  | Except.ok header =>
    match c.url net with
    | Except.error err => Except.error err
    | Except.ok thURL =>
      Except.ok ⟨header, thURL,
        ⟨NewLineParseHelper (optDefsOf [("subject", c.Subject), ("id", c.ID),
          ("eventType", c.EventType), ("eventTime", c.EventTime),
          ("dataVersion", c.DataVersion)]), 0, 0⟩⟩

/-- Struct `event` of egpipe; `Data` is the `json.RawMessage` of the line. -/
structure event where
  ID : String
  Topic : String
  Subject : String
  Data : Line
  EventType : String
  EventTime : String
  DataVersion : String
  deriving DecidableEq, Repr

/-- What `eventTime` of egpipe returns, with the builder and the line data as
the call leaves them. -/
structure EventTimeResult where
  val : String
  err : Option Error
  b : Builder
  data : LineData

/-- Method `eventBuilder.eventTime` of egpipe. -/
def eventTime (sys : Sys) (lib : Lib) (b : Builder) (ld : LineData) : EventTimeResult :=
  match (b.parseHelper.GetVal lib "eventTime" ld).err with
  | some err =>
    ⟨"", some err, { b with parseHelper := (b.parseHelper.GetVal lib "eventTime" ld).c },
      (b.parseHelper.GetVal lib "eventTime" ld).data⟩
  | none =>
    if (b.parseHelper.GetVal lib "eventTime" ld).val = "now" then
      ⟨sys.Format (sys.Now b.clock), none,
        { b with parseHelper := (b.parseHelper.GetVal lib "eventTime" ld).c,
                 clock := b.clock + 1 },
        (b.parseHelper.GetVal lib "eventTime" ld).data⟩
    else
      match strconv.ParseInt (b.parseHelper.GetVal lib "eventTime" ld).val with
      | Except.error err =>
        ⟨"", some err, { b with parseHelper := (b.parseHelper.GetVal lib "eventTime" ld).c },
          (b.parseHelper.GetVal lib "eventTime" ld).data⟩
      | Except.ok iVal =>
        ⟨sys.Format ⟨iVal.tdiv 1000, wrapInt64 (iVal.tmod 1000 * 1000000)⟩, none,
          { b with parseHelper := (b.parseHelper.GetVal lib "eventTime" ld).c },
          (b.parseHelper.GetVal lib "eventTime" ld).data⟩

/-- Method `eventBuilder.buildEvent` of egpipe: the event or the error, and
the builder afterwards. -/
def buildEvent (sys : Sys) (lib : Lib) (b : Builder) (data : Line) :
    Except Error event × Builder :=
  let r1 := b.parseHelper.GetVal lib "id" (NewLineData data)
  match r1.err with
  | some err => (Except.error err, { b with parseHelper := r1.c })
  | none =>
    let id := if r1.val = "" then sys.UUID b.uuids else r1.val
    let n := if r1.val = "" then b.uuids + 1 else b.uuids
    let r2 := r1.c.GetVal lib "subject" r1.data
    match r2.err with
    | some err => (Except.error err, ⟨r2.c, b.clock, n⟩)
    | none =>
      let r3 := r2.c.GetVal lib "dataVersion" r2.data
      match r3.err with
      | some err => (Except.error err, ⟨r3.c, b.clock, n⟩)
      | none =>
        let r4 := eventTime sys lib ⟨r3.c, b.clock, n⟩ r3.data
        match r4.err with
        | some err => (Except.error err, r4.b)
        | none =>
          let r5 := r4.b.parseHelper.GetVal lib "eventType" r4.data
          match r5.err with
          | some err => (Except.error err, { r4.b with parseHelper := r5.c })
          | none =>
            (Except.ok ⟨id, "", r2.val, data, r5.val, r4.val, r3.val⟩,
              { r4.b with parseHelper := r5.c })

/-- The loop `for i, data := range cache` of `FlushEvents` of egpipe. -/
def buildEvents (sys : Sys) (lib : Lib) : Builder → List Line → Except Error (List event) × Builder
  | b, [] => (Except.ok [], b)
  | b, data :: rest =>
    match buildEvent sys lib b data with
    | (Except.error err, b1) => (Except.error err, b1)
    | (Except.ok ev, b1) =>
      match buildEvents sys lib b1 rest with
      | (Except.error err, b2) => (Except.error err, b2)
      | (Except.ok evs, b2) => (Except.ok (ev :: evs), b2)

/-- An `http.Request`. -/
structure Request where
  Method : String
  URL : String
  Header : Header
  Body : String
  deriving DecidableEq, Repr

/-- What `FlushEvents` of egpipe uses to transmit: the JSON encoding of the
events, the error of `http.NewRequestWithContext` for a URL, and
`httpClient.Do`, which answers with a status code. -/
structure Net where
  Encode : List event → Except Error String
  NewRequest : String → Option Error
  Do : Request → Except Error Int

/-- What `FlushEvents` of egpipe returns, with the requests it handed to the
HTTP client and the builder afterwards. -/
structure FlushResult where
  err : Option Error
  sent : List Request
  builder : Builder

/-- Method `eventSink.FlushEvents` of egpipe. -/
def eventSink.FlushEvents (sys : Sys) (lib : Lib) (net : Net) (e : eventSink) (cache : Batch) :
    FlushResult :=
  match buildEvents sys lib e.builder cache with
  | (Except.error err, b) => ⟨some err, [], b⟩
  | (Except.ok events, b) =>
    match net.Encode events with
    | Except.error err => ⟨some err, [], b⟩
    | Except.ok buf =>
      match net.NewRequest e.endpoint with
      | some err => ⟨some err, [], b⟩
      | none =>
        match net.Do ⟨"POST", e.endpoint,
            e.reqHeader ++ [("Content-Type", "application/json; charset=utf-8")], buf⟩ with
        | Except.error err =>
          ⟨some err, [⟨"POST", e.endpoint,
            e.reqHeader ++ [("Content-Type", "application/json; charset=utf-8")], buf⟩], b⟩
        | Except.ok status =>
          if status ≠ 200 then
            ⟨some ("not OK, statusCode: " ++ strconv.FormatInt status),
              [⟨"POST", e.endpoint,
                e.reqHeader ++ [("Content-Type", "application/json; charset=utf-8")], buf⟩], b⟩
          else
            ⟨none, [⟨"POST", e.endpoint,
              e.reqHeader ++ [("Content-Type", "application/json; charset=utf-8")], buf⟩], b⟩

end Egpipe

/-! ## `cmd/eventbridge-pipe/ebpipe.go` -/

namespace Ebpipe

/-- What `eventTime` of eventbridge-pipe returns (`nil` is `none`), with the
builder and the line data as the call leaves them. -/
structure EventTimeResult where
  val : Option Time
  err : Option Error
  b : Builder
  data : LineData

/-- Method `eventBuilder.eventTime` of eventbridge-pipe. -/
def eventTime (sys : Sys) (lib : Lib) (b : Builder) (ld : LineData) : EventTimeResult :=
  match (b.parseHelper.GetVal lib "Time" ld).err with
  | some err =>
    ⟨none, some err, { b with parseHelper := (b.parseHelper.GetVal lib "Time" ld).c },
      (b.parseHelper.GetVal lib "Time" ld).data⟩
  | none =>
    if (b.parseHelper.GetVal lib "Time" ld).val = "" then
      ⟨none, none, { b with parseHelper := (b.parseHelper.GetVal lib "Time" ld).c },
        (b.parseHelper.GetVal lib "Time" ld).data⟩
    else if (b.parseHelper.GetVal lib "Time" ld).val = "now" then
      ⟨some (sys.Now b.clock), none,
        { b with parseHelper := (b.parseHelper.GetVal lib "Time" ld).c, clock := b.clock + 1 },
        (b.parseHelper.GetVal lib "Time" ld).data⟩
    else
      match strconv.ParseInt (b.parseHelper.GetVal lib "Time" ld).val with
      | Except.error err =>
        ⟨none, some err, { b with parseHelper := (b.parseHelper.GetVal lib "Time" ld).c },
          (b.parseHelper.GetVal lib "Time" ld).data⟩
      | Except.ok iVal =>
        ⟨some ⟨iVal.tdiv 1000, wrapInt64 (iVal.tmod 1000 * 1000000)⟩, none,
          { b with parseHelper := (b.parseHelper.GetVal lib "Time" ld).c },
          (b.parseHelper.GetVal lib "Time" ld).data⟩

end Ebpipe

/-! ## `cmd/splunk-pipe/splunkpipe.go` -/

namespace Splunkpipe

/-- Struct `cliOptions` of splunk-pipe. -/
structure cliOptions where
  Endpoint : String
  Sourcetype : String
  Source : String
  Time : String
  Header : List String
  Host : String
  Index : String
  BatchSize : Int
  FlushInterval : Int

/-- Method `cliOptions.url` of splunk-pipe. -/
def cliOptions.url (net : NetURL) (c : cliOptions) : Except Error String :=
  match net.Parse (if !strings.Contains c.Endpoint "://" then "https://" ++ c.Endpoint
      else c.Endpoint) with
  | Except.error err => Except.error err
  | Except.ok pURL =>
    Except.ok (net.URLString
      (if pURL.Path = "" then { pURL with Path := "services/collector/event" } else pURL))

/-- Struct `eventSink` of splunk-pipe. -/
structure eventSink where
  reqHeader : Header
  endpoint : String
  builder : Builder

/-- Method `cliOptions.eventSink` of splunk-pipe. -/
def cliOptions.eventSink (sys : Sys) (net : NetURL) (c : cliOptions) : Except Error eventSink :=
  match headerLoop sys c.Header [] with
  | Except.error err => Except.error err
  | Except.ok header =>
    match c.url net with
    | Except.error err => Except.error err
    | Except.ok thURL =>
      Except.ok ⟨header, thURL,
        ⟨NewLineParseHelper (optDefsOf [("source", c.Source), ("sourcetype", c.Sourcetype),
          ("host", c.Host), ("index", c.Index), ("time", c.Time)]), 0, 0⟩⟩

end Splunkpipe

/-! ## Sample environments -/

/-- A sample environment: the clock stands at the epoch, the k-th uuid is
`uuid-k`, times and quoted strings are rendered in a simplified way. -/
def sampleSys : Sys :=
  ⟨fun _ => ⟨0, 0⟩, fun k => "uuid-" ++ strconv.FormatInt k,
   fun t => strconv.FormatInt t.sec ++ "s+" ++ strconv.FormatInt t.nsec ++ "ns",
   fun s => "\"" ++ s ++ "\""⟩

/-- A sample `net/url`: the scheme is the text before `://`, the host the text
after it, with no path and no query. -/
def sampleNetURL : NetURL :=
  ⟨fun s => Except.ok ⟨String.mk (s.toList.takeWhile fun c => c != ':'),
      String.mk ((s.toList.dropWhile fun c => c != ':').drop 3), "", "", ""⟩,
   fun u => u.Scheme ++ "://" ++ u.Host ++ "/" ++ u.Path ++
     (if u.RawQuery = "" then "" else "?" ++ u.RawQuery),
   fun _ => [],
   fun q => String.intercalate "&" (q.map fun e => e.1 ++ "=" ++ String.intercalate "," e.2)⟩

/-- A sample transport: events are encoded as the list of their ids, every
request is answered with status 200. -/
def sampleNet : Egpipe.Net :=
  ⟨fun evs => Except.ok (String.intercalate "," (evs.map fun ev => ev.ID)),
   fun _ => none, fun _ => Except.ok 200⟩

/-- A sample transport that answers every request with status 500. -/
def rejectingNet : Egpipe.Net :=
  ⟨fun evs => Except.ok (String.intercalate "," (evs.map fun ev => ev.ID)),
   fun _ => none, fun _ => Except.ok 500⟩

/-- The options of `Test_run` of egpipe with the id option left unset, for the
endpoint `example.net`. -/
def unsetIdOptions : Egpipe.cliOptions :=
  ⟨"example.net", "", "my subject", "jp:type", "jp:time", ["foo: bar"], "1.0", 3, 0⟩

/-- A sample library for the last line of `Test_run`: every line decodes to
the object of that line, a query is the name of a field of the object, and
`%.0f` is rendered as `fmt` does. -/
def testLib : Lib :=
  ⟨fun _ => Except.ok (Value.object [("id", Value.str "qux"),
      ("time", Value.float64 (Float64.ofInt 1608309835000)), ("type", Value.str "qux")]),
   fun q => Except.ok fun v =>
     match v with
     | Value.object kv =>
       match kv.find? fun e => e.1 == q with
       | some e => Except.ok e.2
       | none => Except.ok Value.nil
     | _ => Except.ok Value.nil,
   fmt.Sprintf0f, fun _ => "<nil>"⟩

/-- The text of a header option before its first colon (the whole text when
there is none). -/
def beforeColon (h : String) : String := String.mk (h.toList.takeWhile fun c => c != ':')

/-- The text of a header option after its first colon, later colons included. -/
def afterColon (h : String) : String := String.mk ((h.toList.dropWhile fun c => c != ':').drop 1)

/-- The name and the value of a header option: the texts before and after its
first colon, both without surrounding white space. -/
def headerOf (h : String) : String × String :=
  (strings.TrimSpace (beforeColon h), strings.TrimSpace (afterColon h))

/-- Sample options of splunk-pipe. -/
def sampleSplunkOptions : Splunkpipe.cliOptions :=
  ⟨"foo.bar", "jp:type", "the source", "", ["Authorization: Splunk a:b"], "a host",
   "an index", 3, 0⟩

/-- The last line of `Test_run`. -/
def quxLine : Line :=
  "\x7b\"id\": \"qux\", \"time\": 1608309835000, \"type\": \"qux\"\x7d".toList

/-- The options of `Test_run` of egpipe with a second header option that holds
no colon. -/
def badHeaderOptions : Egpipe.cliOptions :=
  ⟨"example.net", "jp:id", "my subject", "jp:type", "jp:time", ["foo: bar", "nocolon"], "1.0",
   3, 0⟩

/-- A builder of egpipe for the options of `Test_run`. -/
def testBuilder : Builder :=
  ⟨NewLineParseHelper (optDefsOf [("subject", "my subject"), ("id", "jp:id"),
    ("eventType", "jp:type"), ("eventTime", "jp:time"), ("dataVersion", "1.0")]), 0, 0⟩

/-- A sample library as `testLib` whose `json.Unmarshal` rejects the line `bad`. -/
def pickyLib : Lib :=
  ⟨fun l => if l = ['b', 'a', 'd'] then Except.error "invalid character" else testLib.Unmarshal l,
   testLib.Compile, testLib.Sprintf0f, testLib.Sprintfv⟩

end Piper

namespace Piper

/-! ## The scanner always comes to an end -/

theorem setErr_fields (s : Bufio) (e : Error) :
    (s.setErr e).r = s.r ∧ (s.setErr e).start = s.start ∧ (s.setErr e).endIdx = s.endIdx := by
  unfold Bufio.setErr
  split <;> exact ⟨rfl, rfl, rfl⟩

theorem setErr_of_none (s : Bufio) (e : Error) (h : s.err = none) :
    (s.setErr e).err = some e := by
  simp [Bufio.setErr, h]

theorem shift_fields (s : Bufio) (m : Mem) :
    (Bufio.shift s m).1.r = s.r ∧ (Bufio.shift s m).1.err = s.err ∧
    (Bufio.shift s m).1.endIdx - (Bufio.shift s m).1.start = s.endIdx - s.start := by
  unfold Bufio.shift
  split <;> exact ⟨rfl, rfl, rfl⟩

theorem grow_fields (s : Bufio) (m : Mem) :
    (Bufio.grow s m).1.r = s.r ∧ (Bufio.grow s m).1.err = s.err ∧
    (Bufio.grow s m).1.endIdx - (Bufio.grow s m).1.start = s.endIdx - s.start := by
  unfold Bufio.grow
  split <;> exact ⟨rfl, rfl, rfl⟩

theorem read_fields (s : Bufio) (m : Mem) (h : s.err = none) :
    (Bufio.read s m).1.r.length + (if (Bufio.read s m).1.err = none then 1 else 0)
      ≤ s.r.length ∧
    ((Bufio.read s m).1.endIdx - (Bufio.read s m).1.start) + (Bufio.read s m).1.r.length
      ≤ (s.endIdx - s.start) + s.r.length := by
  unfold Bufio.read
  split
  · rename_i hr
    obtain ⟨h1, h2, h3⟩ := setErr_fields s io.EOF
    simp only [h1, h2, h3, setErr_of_none s io.EOF h, hr, List.length_nil]
    simp
  · split
    · obtain ⟨h1, h2, h3⟩ := setErr_fields s io.ErrNoProgress
      simp only [h1, h2, h3, setErr_of_none s io.ErrNoProgress h]
      simp
    · rename_i hr hsp
      have hlen : 0 < s.r.length := List.length_pos.2 hr
      simp only [h, List.length_drop, if_true]
      omega

theorem split_none (s : Bufio) (m : Mem) (advance : Nat) (h : s.split m = (advance, none)) :
    advance = 0 := by
  unfold Bufio.split ScanLines at h
  split at h
  · split at h
    · cases h
      rfl
    · split at h
      · cases h
      · split at h
        · cases h
        · cases h
          rfl
  · cases h
    rfl

theorem split_some (s : Bufio) (m : Mem) (advance n : Nat) (h : s.split m = (advance, some n)) :
    1 ≤ advance ∧ s.start < s.endIdx := by
  have hlen : (((m.getD s.buf []).drop s.start).take (s.endIdx - s.start)).length
      ≤ s.endIdx - s.start := by
    rw [List.length_take]
    exact Nat.min_le_left _ _
  unfold Bufio.split ScanLines at h
  split at h
  · split at h
    · cases h
    · rename_i hne
      split at h
      · rename_i hc
        have hpos : 0 < (((m.getD s.buf []).drop s.start).take (s.endIdx - s.start)).length := by
          apply List.length_pos.2
          intro hnil
          rw [hnil] at hc
          simp at hc
        cases h
        exact ⟨by omega, by omega⟩
      · split at h
        · rename_i hc hat
          have hpos : (((m.getD s.buf []).drop s.start).take (s.endIdx - s.start)).length ≠ 0 := by
            intro hz
            apply hne
            simp only [hat, hz, Bool.true_and]
            rfl
          cases h
          exact ⟨by omega, by omega⟩
        · cases h
  · cases h

theorem Scan_isSome (fuel : Nat) : ∀ (s : Bufio) (m : Mem),
    s.r.length + (if s.err = none then 1 else 0) < fuel → ∃ res, Scan fuel s m = some res := by
  induction fuel with
  | zero => intro s m h; omega
  | succ fuel ih =>
    intro s m h
    rw [Scan]
    rcases hsp : s.split m with ⟨advance, tok⟩
    cases tok with
    | some n => exact ⟨_, rfl⟩
    | none =>
      simp only
      split
      · exact ⟨_, rfl⟩
      · rename_i herr
        have herr1 : s.err = none := by simpa using herr
        obtain ⟨hs1, hs2, _⟩ := shift_fields { s with start := s.start + advance } m
        rcases hsh : Bufio.shift { s with start := s.start + advance } m with ⟨s1, m1⟩
        rw [hsh] at hs1 hs2
        simp only at hs1 hs2 ⊢
        split
        · exact ⟨_, rfl⟩
        · obtain ⟨hg1, hg2, _⟩ := grow_fields s1 m1
          rcases hgr : Bufio.grow s1 m1 with ⟨s2, m2⟩
          rw [hgr] at hg1 hg2
          simp only at hg1 hg2 ⊢
          have he2 : s2.err = none := by rw [hg2, hs2, herr1]
          obtain ⟨hr1, _⟩ := read_fields s2 m2 he2
          rcases hrd : Bufio.read s2 m2 with ⟨s3, m3⟩
          rw [hrd] at hr1
          simp only at hr1 ⊢
          apply ih
          rw [hg1, hs1] at hr1
          rw [herr1] at h
          simp only [if_true] at h
          omega

theorem Scan_gap (fuel : Nat) : ∀ (s : Bufio) (m : Mem) (tok : Slice) (s1 : Bufio) (m1 : Mem),
    Scan fuel s m = some (some tok, s1, m1) →
      (s1.endIdx - s1.start) + s1.r.length < (s.endIdx - s.start) + s.r.length := by
  induction fuel with
  | zero => intro s m tok s1 m1 h; cases h
  | succ fuel ih =>
    intro s m tok t1 n1 h
    rw [Scan] at h
    rcases hsp : s.split m with ⟨advance, tk⟩
    rw [hsp] at h
    cases tk with
    | some n =>
      obtain ⟨ha, hlt⟩ := split_some s m advance n hsp
      simp only [Option.some.injEq, Prod.mk.injEq] at h
      obtain ⟨_, hs, _⟩ := h
      subst hs
      simp only
      omega
    | none =>
      have hadv := split_none s m advance hsp
      subst hadv
      simp only at h
      split at h
      · cases h
      · rename_i herr
        have herr1 : s.err = none := by simpa using herr
        obtain ⟨hs1, hs2, hs3⟩ := shift_fields { s with start := s.start + 0 } m
        rcases hsh : Bufio.shift { s with start := s.start + 0 } m with ⟨s1, m1⟩
        rw [hsh] at hs1 hs2 hs3 h
        simp only at hs1 hs2 hs3 h
        split at h
        · cases h
        · obtain ⟨hg1, hg2, hg3⟩ := grow_fields s1 m1
          rcases hgr : Bufio.grow s1 m1 with ⟨s2, m2⟩
          rw [hgr] at hg1 hg2 hg3 h
          simp only at hg1 hg2 hg3 h
          have he2 : s2.err = none := by rw [hg2, hs2, herr1]
          obtain ⟨_, hr2⟩ := read_fields s2 m2 he2
          rcases hrd : Bufio.read s2 m2 with ⟨s3, m3⟩
          rw [hrd] at hr2 h
          simp only at hr2 h
          have := ih s3 m3 tok t1 n1 h
          rw [hg1, hg3, hs1, hs3] at hr2
          simp only [Nat.add_zero] at hr2
          omega

theorem scanAll_isSome (fuel : Nat) : ∀ (s : Bufio) (m : Mem),
    (s.endIdx - s.start) + s.r.length < fuel → ∃ res, scanAll fuel s m = some res := by
  induction fuel with
  | zero => intro s m h; omega
  | succ fuel ih =>
    intro s m h
    obtain ⟨res, hres⟩ := Scan_isSome (s.r.length + 2) s m (by split <;> omega)
    rw [scanAll, hres]
    rcases res with ⟨tok, s1, m1⟩
    cases tok with
    | none => exact ⟨_, rfl⟩
    | some tok =>
      have hgap := Scan_gap _ s m tok s1 m1 hres
      obtain ⟨res2, hres2⟩ := ih s1 m1 (by omega)
      simp only [hres2]
      exact ⟨_, rfl⟩

/-- The bound on the number of calls in `NewScanner` is never met: `Scan`
returns false after finitely many calls, and the scanner reports what `Err`
reports then. -/
theorem NewScanner_ends (input : List Char) :
    ∃ steps s m, scanAll (input.length + 1) ⟨input, 0, 0, 0, none⟩ [[]] = some (steps, s, m) ∧
      NewScanner input = ⟨[[]], steps, m, s.Err, fun _ => none⟩ := by
  obtain ⟨⟨steps, s, m⟩, hres⟩ := scanAll_isSome (input.length + 1) ⟨input, 0, 0, 0, none⟩ [[]]
    (by simp)
  refine ⟨steps, s, m, hres, ?_⟩
  unfold NewScanner
  rw [hres]

/-! ## The log -/

theorem batches_append (a b : List Event) : batches (a ++ b) = batches a ++ batches b := by
  induction a with
  | nil => rfl
  | cons e es ih => cases e <;> simp [batches, ih]

theorem sinkCalls_append (a b : List Event) : sinkCalls (a ++ b) = sinkCalls a ++ sinkCalls b := by
  induction a with
  | nil => rfl
  | cons e es ih => cases e <;> simp [sinkCalls, ih]

theorem scanned_append (a b : List Event) : scanned (a ++ b) = scanned a ++ scanned b := by
  induction a with
  | nil => rfl
  | cons e es ih => cases e <;> simp [scanned, ih]

theorem FlushEvents_log (w : World) (o : Origin) :
    (FlushEvents w o).2.log
      = w.log ++ [Event.flushEvents o (cacheBytes w) (FlushEvents w o).1] := rfl

theorem FlushEvents_cacheBytes (w : World) (o : Origin) :
    cacheBytes (FlushEvents w o).2 = cacheBytes w := rfl

/-! ## The timer -/

theorem tick_off (w : World) (h : w.ticking = false) : tick w = w := by
  simp [tick, h]

theorem ticks_off (n : Nat) : ∀ (w : World), w.ticking = false → ticks n w = w := by
  induction n with
  | zero => intro w _; rfl
  | succ n ih =>
    intro w h
    rw [ticks, tick_off w h]
    exact ih w h

theorem tick_log (w : World) :
    ∃ post, (tick w).log = w.log ++ post ∧ Resent (cacheBytes w) post ∧
      cacheBytes (tick w) = cacheBytes w ∧ (tick w).p = w.p ∧ (tick w).mem = w.mem := by
  unfold tick flush
  split
  · have hl := FlushEvents_log w Origin.tick
    rcases hw : FlushEvents w Origin.tick with ⟨r, w2⟩
    have hp : w2.p = w.p := by
      have := congrArg (fun x => x.2.p) hw
      simpa [FlushEvents] using this.symm
    have hm : w2.mem = w.mem := by
      have := congrArg (fun x => x.2.mem) hw
      simpa [FlushEvents] using this.symm
    rw [hw] at hl
    simp only at hl
    have hres : Resent (cacheBytes w) [Event.flushEvents Origin.tick (cacheBytes w) r] := by
      intro ev hev
      simp only [List.mem_singleton] at hev
      exact ⟨r, hev⟩
    cases r with
    | some err => exact ⟨_, hl, hres, by simp [cacheBytes, hp, hm], hp, hm⟩
    | none => exact ⟨_, hl, hres, by simp [cacheBytes, hp, hm], hp, hm⟩
  · exact ⟨[], by simp, (fun ev hev => by cases hev), rfl, rfl, rfl⟩

theorem ticks_log (n : Nat) : ∀ (w : World),
    ∃ post, (ticks n w).log = w.log ++ post ∧ Resent (cacheBytes w) post ∧
      cacheBytes (ticks n w) = cacheBytes w ∧ (ticks n w).p = w.p ∧ (ticks n w).mem = w.mem := by
  induction n with
  | zero => intro w; exact ⟨[], by simp [ticks], (fun ev hev => by cases hev), rfl, rfl, rfl⟩
  | succ n ih =>
    intro w
    obtain ⟨post1, h1, hr1, hc1, hp1, hm1⟩ := tick_log w
    obtain ⟨post2, h2, hr2, hc2, hp2, hm2⟩ := ih (tick w)
    refine ⟨post1 ++ post2, ?_, ?_, ?_, ?_, ?_⟩
    · rw [ticks, h2, h1, List.append_assoc]
    · intro ev hev
      rcases List.mem_append.1 hev with hev | hev
      · exact hr1 ev hev
      · rw [hc1] at hr2
        exact hr2 ev hev
    · rw [ticks, hc2, hc1]
    · rw [ticks, hp2, hp1]
    · rw [ticks, hm2, hm1]

/-! ## A failed flush ends the run -/

theorem NoFail.append_ok {log : List Event} (h : NoFail log) (o : Origin) (b : Batch) :
    NoFail (log ++ [Event.flushEvents o b none]) := by
  intro o1 b1 e1 hmem
  simp only [List.mem_append, List.mem_singleton] at hmem
  rcases hmem with hmem | hmem
  · exact h o1 b1 e1 hmem
  · cases hmem

theorem NoFail.append_scan {log : List Event} (h : NoFail log) (l : Line) :
    NoFail (log ++ [Event.scan l]) := by
  intro o1 b1 e1 hmem
  simp only [List.mem_append, List.mem_singleton] at hmem
  rcases hmem with hmem | hmem
  · exact h o1 b1 e1 hmem
  · cases hmem

theorem NoFail.append_resent {log : List Event} (h : NoFail log) {b : Batch} {post : List Event}
    (hp : Resent b post) : NoFail (log ++ post) := by
  intro o1 b1 e1 hmem
  rcases List.mem_append.1 hmem with hmem | hmem
  · exact h o1 b1 e1 hmem
  · obtain ⟨r, hr⟩ := hp _ hmem
    cases hr
    rfl

theorem ticks_noFail (n : Nat) {w : World} (h : NoFail w.log) : NoFail (ticks n w).log := by
  obtain ⟨post, hl, hr, _⟩ := ticks_log n w
  rw [hl]
  exact h.append_resent hr

theorem addEvent_ended {w : World} (h : NoFail w.log) (data : Slice) :
    ((addEvent w data).1 = none → NoFail (addEvent w data).2.log) ∧
    (∀ e, (addEvent w data).1 = some e → (addEvent w data).2.log
      = w.log ++ [Event.flushEvents Origin.size (cacheBytes (addEvent w data).2) (some e)]) := by
  have hl := FlushEvents_log { w with p := { w.p with cache := w.p.cache ++ [data] } } Origin.size
  have hc := FlushEvents_cacheBytes
    { w with p := { w.p with cache := w.p.cache ++ [data] } } Origin.size
  unfold addEvent
  dsimp only
  split
  · exact ⟨fun _ => h, (fun e he => by cases he)⟩
  · rcases hw : FlushEvents { w with p := { w.p with cache := w.p.cache ++ [data] } } Origin.size
      with ⟨r, w2⟩
    rw [hw] at hl hc
    simp only at hl hc
    cases r with
    | some err =>
      refine ⟨(fun hn => by cases hn), ?_⟩
      intro e he
      cases he
      simp only
      rw [hl, hc]
    | none =>
      refine ⟨fun _ => ?_, (fun e he => by cases he)⟩
      simp only
      rw [hl]
      exact NoFail.append_ok h _ _

theorem scanLoop_ended (ctx : Nat → Bool) (sched : Nat → Nat) (steps : List (Mem × Slice)) :
    ∀ (k g : Nat) (w : World), NoFail w.log →
      (∃ err, (scanLoop ctx sched steps k g w).1 = LoopExit.ret err ∧
          Ended (some err) (scanLoop ctx sched steps k g w).2.2.2.log) ∨
      (((scanLoop ctx sched steps k g w).1 = LoopExit.brk ∨
          (scanLoop ctx sched steps k g w).1 = LoopExit.eof) ∧
        NoFail (scanLoop ctx sched steps k g w).2.2.2.log) := by
  induction steps with
  | nil => intro k g w h; exact Or.inr ⟨Or.inr rfl, h⟩
  | cons step rest ih =>
    intro k g w h
    have h0 : NoFail ({ ticks (sched g) w with
        mem := step.1,
        log := (ticks (sched g) w).log ++ [Event.scan (tokenOf step)] } : World).log :=
      (ticks_noFail (sched g) h).append_scan _
    rw [scanLoop]
    split
    · exact ih k (g + 1) _ h0
    · obtain ⟨ha1, ha2⟩ := addEvent_ended (ticks_noFail (sched (g + 1)) h0) step.2
      rcases hw : addEvent (ticks (sched (g + 1))
          { ticks (sched g) w with
            mem := step.1,
            log := (ticks (sched g) w).log ++ [Event.scan (tokenOf step)] }) step.2 with ⟨r, w1⟩
      rw [hw] at ha1 ha2
      cases r with
      | some err =>
        obtain ⟨post, hl, hr, _⟩ := ticks_log (sched (g + 2)) w1
        refine Or.inl ⟨err, rfl, Or.inr ⟨_, Origin.size, cacheBytes w1, err, post, ?_,
          ticks_noFail (sched (g + 1)) h0, rfl, hr⟩⟩
        simp only
        rw [hl, ha2 err rfl, List.append_assoc]
        rfl
      | none =>
        have h2 := ticks_noFail (sched (g + 2)) (ha1 rfl)
        simp only
        cases hfe : (ticks (sched (g + 2)) w1).flushErr with
        | some err => exact Or.inl ⟨err, rfl, Or.inl h2⟩
        | none =>
          simp only
          by_cases hc : ctx k = true
          · rw [if_pos hc]
            exact Or.inr ⟨Or.inl rfl, h2⟩
          · rw [if_neg hc]
            exact ih (k + 1) (g + 3) _ h2

theorem final_ended {w : World} (h : NoFail w.log) (n : Nat) :
    (∀ e, (flush w Origin.final).1 = some e →
      Ended (some e) (ticks n (flush w Origin.final).2).log) ∧
    ((flush w Origin.final).1 = none →
      NoFail (ticks n (flush w Origin.final).2).log ∧
      ∃ pre b post, (ticks n (flush w Origin.final).2).log
        = pre ++ Event.flushEvents Origin.final b none :: post ∧ Resent b post) := by
  obtain ⟨post, hl, hr, _⟩ := ticks_log n (flush w Origin.final).2
  have hf : (flush w Origin.final).2.log
      = w.log ++ [Event.flushEvents Origin.final (cacheBytes w) (flush w Origin.final).1] := rfl
  have hcb : cacheBytes (flush w Origin.final).2 = cacheBytes w := rfl
  rw [hcb] at hr
  constructor
  · intro e he
    refine Or.inr ⟨w.log, Origin.final, cacheBytes w, e, post, ?_, h, rfl, hr⟩
    rw [hl, hf, he, List.append_assoc]
    rfl
  · intro hn
    rw [hl, hf, hn]
    refine ⟨(h.append_ok _ _).append_resent hr, w.log, cacheBytes w, post, ?_, hr⟩
    rw [List.append_assoc]
    rfl

theorem Run_ended (p : Publisher) (ctx : Nat → Bool) (sched : Nat → Nat) (sc : Scanner) :
    Ended (Run p ctx sched sc).err (Run p ctx sched sc).log := by
  unfold Run
  by_cases hrun : p.running = true
  · simp only [hrun, if_true]
    exact Or.inl (fun _ _ _ hmem => by cases hmem)
  · simp only [hrun, if_false]
    have h0 : NoFail (⟨{ p with running := true }, sc.mem, [], none,
        decide (p.FlushInterval ≠ 0)⟩ : World).log := fun _ _ _ hmem => by cases hmem
    have h1 := scanLoop_ended ctx sched sc.steps 0 0 _ h0
    rcases hw : scanLoop ctx sched sc.steps 0 0
      ⟨{ p with running := true }, sc.mem, [], none, decide (p.FlushInterval ≠ 0)⟩
      with ⟨ex, k, g, w1⟩
    rw [hw] at h1
    simp only at h1
    rcases h1 with ⟨err, he, hend⟩ | ⟨he, hno⟩
    · subst he
      exact hend
    · rcases he with he | he
      · subst he
        obtain ⟨hf1, hf2⟩ := final_ended (ticks_noFail (sched g) hno) (sched (g + 1))
        simp only
        rcases hfw : flush (ticks (sched g) w1) Origin.final with ⟨r, w2⟩
        rw [hfw] at hf1 hf2
        cases r with
        | some err => exact hf1 err rfl
        | none => exact Or.inl (hf2 rfl).1
      · subst he
        have hno1 : NoFail ({ ticks (sched g) w1 with mem := sc.last } : World).log :=
          ticks_noFail (sched g) hno
        obtain ⟨hf1, hf2⟩ := final_ended (ticks_noFail (sched (g + 1)) hno1) (sched (g + 2))
        simp only
        rcases hfw : flush (ticks (sched (g + 1)) { ticks (sched g) w1 with mem := sc.last })
          Origin.final with ⟨r, w2⟩
        rw [hfw] at hf1 hf2
        cases r with
        | some err => exact hf1 err rfl
        | none => exact Or.inl (hf2 rfl).1

theorem Ended.noFail_of_none {log : List Event} (h : Ended none log) : NoFail log := by
  rcases h with h | ⟨_, _, _, _, _, _, _, he, _⟩
  · exact h
  · cases he

/-- If an element occurs neither before nor after the place where a list is
split, it is the element at that place. -/
theorem split_unique {α : Type} (x y : α) : ∀ (pre post l post2 : List α),
    pre ++ x :: post = l ++ y :: post2 → x ∉ l → x ∉ post2 →
      pre = l ∧ x = y ∧ post = post2 := by
  intro pre
  induction pre with
  | nil =>
    intro post l post2 h hl hp
    cases l with
    | nil =>
      simp only [List.nil_append, List.cons.injEq] at h
      exact ⟨rfl, h.1, h.2⟩
    | cons a l =>
      simp only [List.nil_append, List.cons_append, List.cons.injEq] at h
      exact absurd (by rw [h.1]; simp) hl
  | cons a pre ih =>
    intro post l post2 h hl hp
    cases l with
    | nil =>
      simp only [List.nil_append, List.cons_append, List.cons.injEq] at h
      have : x ∈ post2 := by rw [← h.2]; simp
      exact absurd this hp
    | cons c l =>
      simp only [List.cons_append, List.cons.injEq] at h
      obtain ⟨h1, h2, h3⟩ := ih post l post2 h.2 (fun hm => hl (List.mem_cons_of_mem _ hm)) hp
      exact ⟨by rw [h.1, h1], h2, h3⟩

/-! ## Without a flush interval the timer makes no call -/

theorem FlushEvents_off {w : World} (h : Off w) (o : Origin) (ho : o ≠ Origin.tick) :
    Off (FlushEvents w o).2 := by
  refine ⟨h.ticking, ?_⟩
  intro b r hmem
  simp only [FlushEvents, List.mem_append, List.mem_singleton] at hmem
  rcases hmem with hmem | hmem
  · exact h.log b r hmem
  · cases hmem
    exact ho rfl

theorem addEvent_off {w : World} (h : Off w) (data : Slice) : Off (addEvent w data).2 := by
  have h1 : Off { w with p := { w.p with cache := w.p.cache ++ [data] } } := ⟨h.ticking, h.log⟩
  have h2 := FlushEvents_off h1 Origin.size (by decide)
  unfold addEvent
  dsimp only
  split
  · exact h1
  · rcases hw : FlushEvents { w with p := { w.p with cache := w.p.cache ++ [data] } } Origin.size
      with ⟨r, w2⟩
    rw [hw] at h2
    cases r with
    | some err => exact h2
    | none => exact ⟨h2.ticking, h2.log⟩

theorem scanLoop_off (ctx : Nat → Bool) (sched : Nat → Nat) (steps : List (Mem × Slice)) :
    ∀ (k g : Nat) (w : World), Off w → Off (scanLoop ctx sched steps k g w).2.2.2 := by
  induction steps with
  | nil => intro k g w h; exact h
  | cons step rest ih =>
    intro k g w h
    have h0 : Off { w with mem := step.1, log := w.log ++ [Event.scan (tokenOf step)] } := by
      refine ⟨h.ticking, ?_⟩
      intro b r hmem
      simp only [List.mem_append, List.mem_singleton] at hmem
      rcases hmem with hmem | hmem
      · exact h.log b r hmem
      · cases hmem
    have ha := addEvent_off h0 step.2
    rw [scanLoop, ticks_off (sched g) w h.ticking, ticks_off (sched (g + 1)) _ h0.ticking]
    split
    · exact ih k (g + 1) _ h0
    · rcases hw : addEvent { w with mem := step.1, log := w.log ++ [Event.scan (tokenOf step)] }
        step.2 with ⟨r, w1⟩
      rw [hw] at ha
      simp only at ha
      cases r with
      | some err =>
        simp only
        rw [ticks_off (sched (g + 2)) w1 ha.ticking]
        exact ha
      | none =>
        simp only
        rw [ticks_off (sched (g + 2)) w1 ha.ticking]
        cases hfe : w1.flushErr with
        | some err => exact ha
        | none =>
          simp only
          by_cases hc : ctx k = true
          · rw [if_pos hc]
            exact ha
          · rw [if_neg hc]
            exact ih (k + 1) (g + 3) _ ha

theorem flush_off {w : World} (h : Off w) (o : Origin) (ho : o ≠ Origin.tick) :
    Off (flush w o).2 := FlushEvents_off h o ho

theorem Run_noTick (p : Publisher) (ctx : Nat → Bool) (sched : Nat → Nat) (sc : Scanner)
    (hint : p.FlushInterval = 0) :
    ∀ b r, Event.flushEvents Origin.tick b r ∉ (Run p ctx sched sc).log := by
  unfold Run
  by_cases hrun : p.running = true
  · simp [hrun]
  · simp only [hrun, if_false]
    have h0 : Off ⟨{ p with running := true }, sc.mem, [], none, decide (p.FlushInterval ≠ 0)⟩ :=
      ⟨by simp [hint], fun _ _ hmem => by cases hmem⟩
    have h1 := scanLoop_off ctx sched sc.steps 0 0 _ h0
    rcases hw : scanLoop ctx sched sc.steps 0 0
      ⟨{ p with running := true }, sc.mem, [], none, decide (p.FlushInterval ≠ 0)⟩
      with ⟨ex, k, g, w1⟩
    rw [hw] at h1
    simp only at h1
    have h2 := flush_off h1 Origin.final (by decide)
    cases ex with
    | ret err => exact h1.log
    | brk =>
      simp only
      rw [ticks_off (sched g) w1 h1.ticking]
      rcases hfw : flush w1 Origin.final with ⟨r, w2⟩
      rw [hfw] at h2
      cases r with
      | some err =>
        simp only
        rw [ticks_off (sched (g + 1)) w2 h2.ticking]
        exact h2.log
      | none =>
        simp only
        rw [ticks_off (sched (g + 1)) w2 h2.ticking]
        exact h2.log
    | eof =>
      have h3 : Off { w1 with mem := sc.last } := ⟨h1.ticking, h1.log⟩
      have h4 := flush_off h3 Origin.final (by decide)
      simp only
      rw [ticks_off (sched g) w1 h1.ticking, ticks_off (sched (g + 1)) _ h3.ticking]
      rcases hfw : flush { w1 with mem := sc.last } Origin.final with ⟨r, w2⟩
      rw [hfw] at h4
      cases r with
      | some err =>
        simp only
        rw [ticks_off (sched (g + 2)) w2 h4.ticking]
        exact h4.log
      | none =>
        simp only
        rw [ticks_off (sched (g + 2)) w2 h4.ticking]
        exact h4.log

/-! ## How the loop is left -/

theorem FlushEvents_scanned (w : World) (o : Origin) :
    scanned (FlushEvents w o).2.log = scanned w.log := by
  simp [FlushEvents, scanned_append, scanned]

theorem addEvent_scanned (w : World) (data : Slice) :
    scanned (addEvent w data).2.log = scanned w.log := by
  have h2 := FlushEvents_scanned { w with p := { w.p with cache := w.p.cache ++ [data] } }
    Origin.size
  unfold addEvent
  dsimp only
  split
  · rfl
  · rcases hw : FlushEvents { w with p := { w.p with cache := w.p.cache ++ [data] } } Origin.size
      with ⟨r, w2⟩
    rw [hw] at h2
    cases r <;> exact h2

theorem resent_scanned {b : Batch} {post : List Event} (h : Resent b post) : scanned post = [] := by
  induction post with
  | nil => rfl
  | cons ev post ih =>
    obtain ⟨r, hr⟩ := h ev (List.mem_cons_self _ _)
    subst hr
    exact ih (fun e he => h e (List.mem_cons_of_mem _ he))

theorem ticks_scanned (n : Nat) (w : World) : scanned (ticks n w).log = scanned w.log := by
  obtain ⟨post, hl, hr, _⟩ := ticks_log n w
  rw [hl, scanned_append, resent_scanned hr, List.append_nil]

theorem accepted_cons_blank (step : Mem × Slice) (rest : List (Mem × Slice))
    (h : blank (tokenOf step) = true) : accepted (step :: rest) = accepted rest := by
  simp [accepted, List.filter_cons, h]

theorem accepted_cons_line (step : Mem × Slice) (rest : List (Mem × Slice))
    (h : blank (tokenOf step) = false) : accepted (step :: rest) = accepted rest + 1 := by
  simp [accepted, List.filter_cons, h]

theorem scanLoop_exit (ctx : Nat → Bool) (sched : Nat → Nat) (steps : List (Mem × Slice)) :
    ∀ (k g : Nat) (w : World),
      ((scanLoop ctx sched steps k g w).1 = LoopExit.eof →
        scanned (scanLoop ctx sched steps k g w).2.2.2.log = scanned w.log ++ steps.map tokenOf ∧
        ∀ i, k ≤ i → i < k + accepted steps → ctx i = false) ∧
      ((scanLoop ctx sched steps k g w).1 = LoopExit.brk →
        ∃ pre step rest, steps = pre ++ step :: rest ∧
          scanned (scanLoop ctx sched steps k g w).2.2.2.log
            = scanned w.log ++ (pre ++ [step]).map tokenOf ∧
          blank (tokenOf step) = false ∧ ctx (k + accepted pre) = true ∧
          ∀ i, k ≤ i → i < k + accepted pre → ctx i = false) := by
  induction steps with
  | nil =>
    intro k g w
    refine ⟨fun _ => ⟨by simp [scanLoop], ?_⟩, fun h => by cases h⟩
    intro i h1 h2
    simp [accepted] at h2
    omega
  | cons step rest ih =>
    intro k g w
    have hs0 : scanned ({ ticks (sched g) w with
        mem := step.1,
        log := (ticks (sched g) w).log ++ [Event.scan (tokenOf step)] } : World).log
        = scanned w.log ++ [tokenOf step] := by
      simp [scanned_append, scanned, ticks_scanned]
    rw [scanLoop]
    split
    · rename_i hb
      obtain ⟨h1, h2⟩ := ih k (g + 1) { ticks (sched g) w with
        mem := step.1,
        log := (ticks (sched g) w).log ++ [Event.scan (tokenOf step)] }
      rw [hs0] at h1 h2
      constructor
      · intro he
        obtain ⟨h3, h4⟩ := h1 he
        refine ⟨by rw [h3]; simp, ?_⟩
        rw [accepted_cons_blank step rest hb]
        exact h4
      · intro he
        obtain ⟨pre, st, rs, hsteps, hsc, hbl, hctx, hall⟩ := h2 he
        refine ⟨step :: pre, st, rs, by rw [hsteps]; rfl, by rw [hsc]; simp, hbl, ?_, ?_⟩
        · rw [accepted_cons_blank step pre hb]
          exact hctx
        · rw [accepted_cons_blank step pre hb]
          exact hall
    · rename_i hb
      have hb1 : blank (tokenOf step) = false := by simpa using hb
      have ha := addEvent_scanned (ticks (sched (g + 1))
          { ticks (sched g) w with
            mem := step.1,
            log := (ticks (sched g) w).log ++ [Event.scan (tokenOf step)] }) step.2
      rw [ticks_scanned, hs0] at ha
      rcases hw : addEvent (ticks (sched (g + 1))
          { ticks (sched g) w with
            mem := step.1,
            log := (ticks (sched g) w).log ++ [Event.scan (tokenOf step)] }) step.2 with ⟨r, w1⟩
      rw [hw] at ha
      simp only at ha
      cases r with
      | some err => exact ⟨fun h => (by cases h), fun h => (by cases h)⟩
      | none =>
        simp only
        cases hfe : (ticks (sched (g + 2)) w1).flushErr with
        | some err => exact ⟨fun h => (by cases h), fun h => (by cases h)⟩
        | none =>
          simp only
          by_cases hc : ctx k = true
          · rw [if_pos hc]
            refine ⟨fun h => (by cases h), fun _ => ⟨[], step, rest, rfl, ?_, hb1, ?_, ?_⟩⟩
            · simp only [ticks_scanned, ha, List.nil_append, List.map_cons, List.map_nil]
            · simpa [accepted] using hc
            · intro i h1 h2
              simp [accepted] at h2
              omega
          · rw [if_neg hc]
            have hc1 : ctx k = false := by simpa using hc
            obtain ⟨h1, h2⟩ := ih (k + 1) (g + 3) (ticks (sched (g + 2)) w1)
            rw [ticks_scanned, ha] at h1 h2
            constructor
            · intro he
              obtain ⟨h3, h4⟩ := h1 he
              refine ⟨by rw [h3]; simp, ?_⟩
              intro i hi1 hi2
              rw [accepted_cons_line step rest hb1] at hi2
              by_cases hik : i = k
              · rw [hik]
                exact hc1
              · exact h4 i (by omega) (by omega)
            · intro he
              obtain ⟨pre, st, rs, hsteps, hsc, hbl, hctx, hall⟩ := h2 he
              refine ⟨step :: pre, st, rs, by rw [hsteps]; rfl, by rw [hsc]; simp, hbl, ?_, ?_⟩
              · rw [accepted_cons_line step pre hb1]
                have : k + (accepted pre + 1) = k + 1 + accepted pre := by omega
                rw [this]
                exact hctx
              · intro i hi1 hi2
                rw [accepted_cons_line step pre hb1] at hi2
                by_cases hik : i = k
                · rw [hik]
                  exact hc1
                · exact hall i (by omega) (by omega)

/-! ## The claims on `Run` -/

/-- C1 (the code does not do this). `addEvent` caches the slice that
`scanner.Bytes()` returns, and a later `Scan` overwrites the buffer it points
into.  On ten lines of 500 bytes with maximum size 10, flush interval 0 and a
sink that always succeeds, `Run` reads the ten lines and returns nil, but the
first `FlushEvents` call is handed the lines `i j c d e f g h i j`: the first
and the second line read are in no call, though each should be in call 1. -/
theorem C1_cached_lines_overwritten :
    (Run (newPublisher 10 okSink 0) (fun _ => false) (fun _ => 0) (NewScanner tenLines)).err
      = none ∧
    scanned (Run (newPublisher 10 okSink 0) (fun _ => false) (fun _ => 0)
        (NewScanner tenLines)).log
      = ['a', 'b', 'c', 'd', 'e', 'f', 'g', 'h', 'i', 'j'].map (List.replicate 500) ∧
    sinkCalls (Run (newPublisher 10 okSink 0) (fun _ => false) (fun _ => 0)
        (NewScanner tenLines)).log
      = [Event.flushEvents Origin.size
          (['i', 'j', 'c', 'd', 'e', 'f', 'g', 'h', 'i', 'j'].map (List.replicate 500)) none,
         Event.flushEvents Origin.final [] none] ∧
    List.replicate 500 'a' ∉ (batches (Run (newPublisher 10 okSink 0) (fun _ => false)
        (fun _ => 0) (NewScanner tenLines)).log).flatten ∧
    List.replicate 500 'b' ∉ (batches (Run (newPublisher 10 okSink 0) (fun _ => false)
        (fun _ => 0) (NewScanner tenLines)).log).flatten := by
  decide!

/-- C2 (the code does not do this). On the lines 3000 × `a`, 3000 × `b` and
`c`, with maximum size 3, flush interval 0 and a sink that always succeeds,
`Run` reads the three lines and returns nil, but the sink is handed
3000 × `b` twice and 3000 × `a` never: the batches in call order are not the
non-blank lines read. -/
theorem C2_line_lost_and_duplicated :
    (Run (newPublisher 3 okSink 0) (fun _ => false) (fun _ => 0) (NewScanner threeLines)).err
      = none ∧
    scanned (Run (newPublisher 3 okSink 0) (fun _ => false) (fun _ => 0)
        (NewScanner threeLines)).log
      = [List.replicate 3000 'a', List.replicate 3000 'b', ['c']] ∧
    batches (Run (newPublisher 3 okSink 0) (fun _ => false) (fun _ => 0)
        (NewScanner threeLines)).log
      = [[List.replicate 3000 'b', List.replicate 3000 'b', ['c']], []] ∧
    (batches (Run (newPublisher 3 okSink 0) (fun _ => false) (fun _ => 0)
        (NewScanner threeLines)).log).flatten
      ≠ (scanned (Run (newPublisher 3 okSink 0) (fun _ => false) (fun _ => 0)
        (NewScanner threeLines)).log).filter (fun l => !blank l) := by
  decide!

/-- C3 (the code does not do this). On the lines `x`, 2050 × `a` and ` y`, with
maximum size 3, flush interval 0 and a sink that always succeeds, the sink is
handed a line that is a single space, where `x` was cached; and with one empty
line put in front of the same input it is handed `y` there instead, so the
empty line changes the batches. -/
theorem C3_blank_line_reaches_sink :
    (Run (newPublisher 3 okSink 0) (fun _ => false) (fun _ => 0)
        (NewScanner shortLongShort)).err = none ∧
    scanned (Run (newPublisher 3 okSink 0) (fun _ => false) (fun _ => 0)
        (NewScanner shortLongShort)).log
      = [['x'], List.replicate 2050 'a', [' ', 'y']] ∧
    batches (Run (newPublisher 3 okSink 0) (fun _ => false) (fun _ => 0)
        (NewScanner shortLongShort)).log
      = [[[' '], List.replicate 2050 'a', [' ', 'y']], []] ∧
    blank [' '] = true ∧
    (Run (newPublisher 3 okSink 0) (fun _ => false) (fun _ => 0)
        (NewScanner ('\n' :: shortLongShort))).err = none ∧
    scanned (Run (newPublisher 3 okSink 0) (fun _ => false) (fun _ => 0)
        (NewScanner ('\n' :: shortLongShort))).log
      = [[], ['x'], List.replicate 2050 'a', [' ', 'y']] ∧
    batches (Run (newPublisher 3 okSink 0) (fun _ => false) (fun _ => 0)
        (NewScanner ('\n' :: shortLongShort))).log
      = [[['y'], List.replicate 2050 'a', [' ', 'y']], []] ∧
    batches (Run (newPublisher 3 okSink 0) (fun _ => false) (fun _ => 0)
        (NewScanner shortLongShort)).log
      ≠ batches (Run (newPublisher 3 okSink 0) (fun _ => false) (fun _ => 0)
        (NewScanner ('\n' :: shortLongShort))).log := by
  decide!

/-- C7 (the code does not do this). Nothing stops the timer goroutine when
`Run` returns, and a failed `addEvent` or final flush leaves the failed batch
in the cache: with a flush interval, a tick served after the failure hands the
same batch to the sink again.  Shown on the lines `a b c` with maximum size 2
and a sink that fails once, two ticks being served after the failed
`addEvent`, and on the line `a` with a tick served after the failed final
flush.  In every run, what follows a failed `FlushEvents` call of `addEvent`
or of the final flush is only such calls of the timer with the same batch:
`Run` returns the error of the failed call, no further token is scanned, and
with flush interval 0 nothing follows at all. -/
theorem C7_tick_resends_failed_batch :
    (Run (newPublisher 2 flakySink 2000000000) (fun _ => false)
        (fun n => if n = 5 then 2 else 0) (scannerOf [['a'], ['b'], ['c']])).err
      = some "boom" ∧
    (Run (newPublisher 2 flakySink 2000000000) (fun _ => false)
        (fun n => if n = 5 then 2 else 0) (scannerOf [['a'], ['b'], ['c']])).log
      = [Event.scan ['a'], Event.scan ['b'],
         Event.flushEvents Origin.size [['a'], ['b']] (some "boom"),
         Event.flushEvents Origin.tick [['a'], ['b']] none,
         Event.flushEvents Origin.tick [['a'], ['b']] none] ∧
    (Run (newPublisher 3 flakySink 2000000000) (fun _ => false)
        (fun n => if n = 5 then 1 else 0) (scannerOf [['a']])).err = some "boom" ∧
    (Run (newPublisher 3 flakySink 2000000000) (fun _ => false)
        (fun n => if n = 5 then 1 else 0) (scannerOf [['a']])).log
      = [Event.scan ['a'],
         Event.flushEvents Origin.final [['a']] (some "boom"),
         Event.flushEvents Origin.tick [['a']] none] ∧
    (∀ (p : Publisher) (ctx : Nat → Bool) (sched : Nat → Nat) (sc : Scanner)
        (pre post : List Event) (o : Origin) (b : Batch) (e : Error),
      (Run p ctx sched sc).log = pre ++ Event.flushEvents o b (some e) :: post →
      o ≠ Origin.tick →
        (Run p ctx sched sc).err = some e ∧ Resent b post ∧
        (p.FlushInterval = 0 → post = [])) := by
  refine ⟨by decide!, by decide!, by decide!, by decide!, ?_⟩
  intro p ctx sched sc pre post o b e hlog ho
  rcases Run_ended p ctx sched sc with h | ⟨l, o1, b1, e1, post1, hl, hno, herr, hres⟩
  · exact absurd (h o b e (by rw [hlog]; simp)) ho
  · rw [hl] at hlog
    have hx1 : Event.flushEvents o b (some e) ∉ l := fun hm => ho (hno o b e hm)
    have hx2 : Event.flushEvents o b (some e) ∉ post1 := by
      intro hm
      obtain ⟨r, hr⟩ := hres _ hm
      cases hr
      exact ho rfl
    obtain ⟨_, h2, h3⟩ := split_unique _ _ pre post l post1 hlog.symm hx1 hx2
    cases h2
    subst h3
    refine ⟨herr, hres, ?_⟩
    intro hint
    cases post with
    | nil => rfl
    | cons ev post =>
      obtain ⟨r, hr⟩ := hres ev (List.mem_cons_self _ _)
      subst hr
      exact absurd (by rw [hl]; simp) (Run_noTick p ctx sched sc hint b r)

/-- C7, the part that holds in every run, on the first run above: the failed
call of `addEvent` is followed by the two calls of the timer, `Run` returns
its error, and the flush interval is not 0. -/
theorem C7_tick_resends_failed_batch_witness :
    (Run (newPublisher 2 flakySink 2000000000) (fun _ => false)
        (fun n => if n = 5 then 2 else 0) (scannerOf [['a'], ['b'], ['c']])).log
      = [Event.scan ['a'], Event.scan ['b']]
          ++ Event.flushEvents Origin.size [['a'], ['b']] (some "boom")
            :: [Event.flushEvents Origin.tick [['a'], ['b']] none,
                Event.flushEvents Origin.tick [['a'], ['b']] none] ∧
    Origin.size ≠ Origin.tick ∧
    ((Run (newPublisher 2 flakySink 2000000000) (fun _ => false)
        (fun n => if n = 5 then 2 else 0) (scannerOf [['a'], ['b'], ['c']])).err
        = some "boom" ∧
      Resent [['a'], ['b']]
        [Event.flushEvents Origin.tick [['a'], ['b']] none,
         Event.flushEvents Origin.tick [['a'], ['b']] none] ∧
      ((newPublisher 2 flakySink 2000000000).FlushInterval = 0 →
        [Event.flushEvents Origin.tick [['a'], ['b']] none,
         Event.flushEvents Origin.tick [['a'], ['b']] none] = [])) :=
  ⟨by decide!, by decide,
   C7_tick_resends_failed_batch.2.2.2.2 (newPublisher 2 flakySink 2000000000) (fun _ => false)
     (fun n => if n = 5 then 2 else 0) (scannerOf [['a'], ['b'], ['c']])
     [Event.scan ['a'], Event.scan ['b']]
     [Event.flushEvents Origin.tick [['a'], ['b']] none,
      Event.flushEvents Origin.tick [['a'], ['b']] none]
     Origin.size [['a'], ['b']] "boom" (by decide!) (by decide)⟩

/-- C4 (the code does not do this). `flush` never changes the cache, so after
a flush that succeeded the next flush hands the same lines to the sink again:
shown on a cache holding one line, and on a run with a 2 s flush interval, one
input line, and one timer tick before the end of input. -/
theorem C4_flush_keeps_cache :
    (∀ (w : World) (o : Origin),
      (flush w o).2.p.cache = w.p.cache ∧ cacheBytes (flush w o).2 = cacheBytes w) ∧
    (flush ⟨⟨10, okSink, 2000000000, [⟨0, 0, 1⟩], true⟩, [['a']], [], none, true⟩
      Origin.tick).1 = none ∧
    (flush ⟨⟨10, okSink, 2000000000, [⟨0, 0, 1⟩], true⟩, [['a']], [], none, true⟩
      Origin.tick).2.p.cache = [⟨0, 0, 1⟩] ∧
    cacheBytes (flush ⟨⟨10, okSink, 2000000000, [⟨0, 0, 1⟩], true⟩, [['a']], [], none, true⟩
      Origin.tick).2 = [['a']] ∧
    batches (flush (flush ⟨⟨10, okSink, 2000000000, [⟨0, 0, 1⟩], true⟩, [['a']], [], none, true⟩
      Origin.tick).2 Origin.final).2.log = [[['a']], [['a']]] ∧
    sinkCalls (Run (newPublisher 10 okSink 2000000000) (fun _ => false)
        (fun n => if n = 2 then 1 else 0) (scannerOf [['a']])).log
      = [Event.flushEvents Origin.tick [['a']] none,
         Event.flushEvents Origin.final [['a']] none] :=
  ⟨fun _ _ => ⟨rfl, rfl⟩, by decide, by decide, by decide, by decide, by decide!⟩

/-- C5 (the code does not do this). With nothing left in the cache the final
flush still calls the sink, with an empty cache: on empty input, and on three
lines with maximum size 3. -/
theorem C5_final_flush_of_empty_cache :
    sinkCalls (Run (newPublisher 3 okSink 0) (fun _ => false) (fun _ => 0) (scannerOf [])).log
      = [Event.flushEvents Origin.final [] none] ∧
    sinkCalls (Run (newPublisher 3 okSink 0) (fun _ => false) (fun _ => 0)
        (scannerOf [['a'], ['b'], ['c']])).log
      = [Event.flushEvents Origin.size [['a'], ['b'], ['c']] none,
         Event.flushEvents Origin.final [] none] :=
  ⟨by decide!, by decide!⟩

/-- C6. On a publisher whose running flag is set, `Run` returns the error
"already running" and does nothing else: the publisher (cache and running
flag included) is as before, no token is scanned and the sink is not called. -/
theorem C6_already_running (p : Publisher) (ctx : Nat → Bool) (sched : Nat → Nat)
    (sc : Scanner) (hrun : p.running = true) :
    (Run p ctx sched sc).err = some "already running" ∧
    (Run p ctx sched sc).p = p ∧
    (Run p ctx sched sc).log = [] := by
  simp [Run, hrun]

/-- C6 on a running publisher with one buffered line. -/
theorem C6_already_running_witness :
    (Run ⟨3, okSink, 0, [⟨0, 0, 1⟩], true⟩ (fun _ => false) (fun _ => 0)
        (scannerOf [['a']])).err = some "already running" ∧
    (Run ⟨3, okSink, 0, [⟨0, 0, 1⟩], true⟩ (fun _ => false) (fun _ => 0) (scannerOf [['a']])).p
      = ⟨3, okSink, 0, [⟨0, 0, 1⟩], true⟩ ∧
    (Run ⟨3, okSink, 0, [⟨0, 0, 1⟩], true⟩ (fun _ => false) (fun _ => 0) (scannerOf [['a']])).log
      = [] :=
  C6_already_running ⟨3, okSink, 0, [⟨0, 0, 1⟩], true⟩ (fun _ => false) (fun _ => 0)
    (scannerOf [['a']]) rfl

/-- C8 as stated fails: with the context cancelled at the first check, `Run`
returns nil after one of two lines; the second line is never read. -/
theorem C8_counterexample :
    (Run (newPublisher 3 okSink 0) (fun _ => true) (fun _ => 0)
        (scannerOf [['a'], ['b']])).err = none ∧
    scanned (Run (newPublisher 3 okSink 0) (fun _ => true) (fun _ => 0)
        (scannerOf [['a'], ['b']])).log = [['a']] ∧
    (scannerOf [['a'], ['b']]).tokens = [['a'], ['b']] ∧
    scanned (Run (newPublisher 3 okSink 0) (fun _ => true) (fun _ => 0)
        (scannerOf [['a'], ['b']])).log ≠ (scannerOf [['a'], ['b']]).tokens :=
  ⟨by decide!, by decide!, by decide!, by decide!⟩

/-- C8, amended. `Run` returns nil only if the final flush was made and
succeeded (after it the log holds calls of the timer only), no flush made by
`addEvent` failed, and the loop was left either at the end of the input, the
scanner reporting no error and no check of the context having found it
cancelled, or because the check of the context made after an accepted line
was the first to find it cancelled; that line is then the last token read,
and the tokens after it remain unread. -/
theorem C8_nil_only_after_final_flush (p : Publisher) (ctx : Nat → Bool) (sched : Nat → Nat)
    (sc : Scanner) (h : (Run p ctx sched sc).err = none) :
    (∃ pre b post, (Run p ctx sched sc).log
        = pre ++ Event.flushEvents Origin.final b none :: post ∧ Resent b post) ∧
    NoFail (Run p ctx sched sc).log ∧
    ((scanned (Run p ctx sched sc).log = sc.tokens ∧ sc.err = none ∧
        ∀ i, i < accepted sc.steps → ctx i = false) ∨
      (∃ pre step rest, sc.steps = pre ++ step :: rest ∧
        scanned (Run p ctx sched sc).log = (pre ++ [step]).map tokenOf ∧
        blank (tokenOf step) = false ∧
        ctx (accepted pre) = true ∧
        (∀ i, i < accepted pre → ctx i = false) ∧
        sc.early (pre.length + 1) = none)) := by
  have hend := Run_ended p ctx sched sc
  rw [h] at hend
  refine ⟨?_, hend.noFail_of_none, ?_⟩
  · revert h
    unfold Run
    by_cases hrun : p.running = true
    · simp only [hrun, if_true]
      intro h
      cases h
    · simp only [hrun, if_false]
      have h0 : NoFail (⟨{ p with running := true }, sc.mem, [], none,
          decide (p.FlushInterval ≠ 0)⟩ : World).log := fun _ _ _ hmem => by cases hmem
      have h1 := scanLoop_ended ctx sched sc.steps 0 0 _ h0
      rcases hw : scanLoop ctx sched sc.steps 0 0
        ⟨{ p with running := true }, sc.mem, [], none, decide (p.FlushInterval ≠ 0)⟩
        with ⟨ex, k, g, w1⟩
      rw [hw] at h1
      simp only at h1
      cases ex with
      | ret err => intro h; cases h
      | brk =>
        rcases h1 with ⟨err, he, _⟩ | ⟨_, hno⟩
        · cases he
        · obtain ⟨_, hf2⟩ := final_ended (ticks_noFail (sched g) hno) (sched (g + 1))
          simp only
          rcases hfw : flush (ticks (sched g) w1) Origin.final with ⟨r, w2⟩
          rw [hfw] at hf2
          cases r with
          | some err => intro h; cases h
          | none => intro _; exact (hf2 rfl).2
      | eof =>
        rcases h1 with ⟨err, he, _⟩ | ⟨_, hno⟩
        · cases he
        · have hno1 : NoFail ({ ticks (sched g) w1 with mem := sc.last } : World).log :=
            ticks_noFail (sched g) hno
          obtain ⟨_, hf2⟩ := final_ended (ticks_noFail (sched (g + 1)) hno1) (sched (g + 2))
          simp only
          rcases hfw : flush (ticks (sched (g + 1)) { ticks (sched g) w1 with mem := sc.last })
            Origin.final with ⟨r, w2⟩
          rw [hfw] at hf2
          cases r with
          | some err => intro h; cases h
          | none => intro _; exact (hf2 rfl).2
  · revert h
    unfold Run
    by_cases hrun : p.running = true
    · simp only [hrun, if_true]
      intro h
      cases h
    · simp only [hrun, if_false, Bool.false_eq_true]
      obtain ⟨h1, h2⟩ := scanLoop_exit ctx sched sc.steps 0 0
        ⟨{ p with running := true }, sc.mem, [], none, decide (p.FlushInterval ≠ 0)⟩
      rcases hw : scanLoop ctx sched sc.steps 0 0
        ⟨{ p with running := true }, sc.mem, [], none, decide (p.FlushInterval ≠ 0)⟩
        with ⟨ex, k, g, w1⟩
      rw [hw] at h1 h2
      simp only at h1 h2
      cases ex with
      | ret err => intro h; cases h
      | brk =>
        have hs := FlushEvents_scanned (ticks (sched g) w1) Origin.final
        simp only [flush]
        rcases hfw : FlushEvents (ticks (sched g) w1) Origin.final with ⟨r, w2⟩
        rw [hfw, ticks_scanned] at hs
        cases r with
        | some err => intro h; cases h
        | none =>
          simp only at hs ⊢
          intro h
          obtain ⟨pre, step, rest, hsteps, hsc, hbl, hctx, hall⟩ := h2 rfl
          have hlen : (scanned w1.log).length = pre.length + 1 := by
            rw [hsc]
            simp [scanned]
          refine Or.inr ⟨pre, step, rest, hsteps, ?_, hbl, by simpa using hctx, ?_, ?_⟩
          · rw [ticks_scanned, hs, hsc]
            simp [scanned]
          · intro i hi
            exact hall i (Nat.zero_le i) (by omega)
          · rw [hs, hlen] at h
            exact h
      | eof =>
        have hs := FlushEvents_scanned
          (ticks (sched (g + 1)) { ticks (sched g) w1 with mem := sc.last }) Origin.final
        simp only [flush]
        rcases hfw : FlushEvents
          (ticks (sched (g + 1)) { ticks (sched g) w1 with mem := sc.last }) Origin.final
          with ⟨r, w2⟩
        rw [hfw, ticks_scanned] at hs
        simp only [ticks_scanned] at hs
        cases r with
        | some err => intro h; cases h
        | none =>
          simp only at hs ⊢
          intro h
          obtain ⟨h3, h4⟩ := h1 rfl
          refine Or.inl ⟨?_, h, ?_⟩
          · rw [ticks_scanned, hs, h3]
            simp [scanned, Scanner.tokens]
          · intro i hi
            exact h4 i (Nat.zero_le i) (by omega)

/-- C8, amended, on a run cancelled at the check after the second accepted
line, the third token read: the fourth token is never read. -/
theorem C8_nil_only_after_final_flush_witness :
    (Run (newPublisher 3 okSink 0) (fun k => decide (k = 1)) (fun _ => 0)
        (scannerOf [['a'], [], ['b'], ['c']])).err = none ∧
    scanned (Run (newPublisher 3 okSink 0) (fun k => decide (k = 1)) (fun _ => 0)
        (scannerOf [['a'], [], ['b'], ['c']])).log = [['a'], [], ['b']] ∧
    ((∃ pre b post, (Run (newPublisher 3 okSink 0) (fun k => decide (k = 1)) (fun _ => 0)
        (scannerOf [['a'], [], ['b'], ['c']])).log
          = pre ++ Event.flushEvents Origin.final b none :: post ∧ Resent b post) ∧
    NoFail (Run (newPublisher 3 okSink 0) (fun k => decide (k = 1)) (fun _ => 0)
        (scannerOf [['a'], [], ['b'], ['c']])).log ∧
    ((scanned (Run (newPublisher 3 okSink 0) (fun k => decide (k = 1)) (fun _ => 0)
        (scannerOf [['a'], [], ['b'], ['c']])).log
          = (scannerOf [['a'], [], ['b'], ['c']]).tokens ∧
        (scannerOf [['a'], [], ['b'], ['c']]).err = none ∧
        ∀ i, i < accepted (scannerOf [['a'], [], ['b'], ['c']]).steps →
          (fun k => decide (k = 1) : Nat → Bool) i = false) ∨
      (∃ pre step rest, (scannerOf [['a'], [], ['b'], ['c']]).steps = pre ++ step :: rest ∧
        scanned (Run (newPublisher 3 okSink 0) (fun k => decide (k = 1)) (fun _ => 0)
          (scannerOf [['a'], [], ['b'], ['c']])).log = (pre ++ [step]).map tokenOf ∧
        blank (tokenOf step) = false ∧
        (fun k => decide (k = 1) : Nat → Bool) (accepted pre) = true ∧
        (∀ i, i < accepted pre → (fun k => decide (k = 1) : Nat → Bool) i = false) ∧
        (scannerOf [['a'], [], ['b'], ['c']]).early (pre.length + 1) = none))) :=
  ⟨by decide!, by decide!,
   C8_nil_only_after_final_flush (newPublisher 3 okSink 0) (fun k => decide (k = 1))
     (fun _ => 0) (scannerOf [['a'], [], ['b'], ['c']]) (by decide!)⟩

/-- C9 as stated fails on the empty specification: with `"Time"` configured
as `""` (eventbridge-pipe without a timestamp option), `GetVal` returns the
field name `"Time"`, not the specification. -/
theorem C9_counterexample :
    HasPrefix ((NewLineParseHelper (optDefsOf [("Time", "")])).optDefs "Time") jmespathPrefix
      = false ∧
    ((NewLineParseHelper (optDefsOf [("Time", "")])).GetVal strictLib "Time"
      (NewLineData ['x'])).val = "Time" ∧
    ((NewLineParseHelper (optDefsOf [("Time", "")])).GetVal strictLib "Time"
      (NewLineData ['x'])).val ≠ (NewLineParseHelper (optDefsOf [("Time", "")])).optDefs "Time" :=
  ⟨by decide, by decide, by decide⟩

/-- C9, amended. For a field name configured with a non-empty specification
that does not start with `jp:`, `GetVal` returns exactly that specification
and no error, for every line and every library behaviour; it makes no
`json.Unmarshal` call and leaves the helper and the line data untouched. -/
theorem C9_literal_spec_returned (lib : Lib) (c : LineParseHelper) (valName : String)
    (data : LineData) (hne : c.optDefs valName ≠ "")
    (hlit : HasPrefix (c.optDefs valName) jmespathPrefix = false) :
    (c.GetVal lib valName data).val = c.optDefs valName ∧
    (c.GetVal lib valName data).err = none ∧
    (c.GetVal lib valName data).parses = 0 ∧
    (c.GetVal lib valName data).data = data ∧
    (c.GetVal lib valName data).c = c := by
  simp [LineParseHelper.GetVal, hne, hlit]

/-- C9, amended, on the `Source` option of `Test_eventBuilder_buildEvent`, for
a line that is not JSON. -/
theorem C9_literal_spec_returned_witness :
    (NewLineParseHelper (optDefsOf [("Source", "the-cloud")])).optDefs "Source" ≠ "" ∧
    HasPrefix ((NewLineParseHelper (optDefsOf [("Source", "the-cloud")])).optDefs "Source")
      jmespathPrefix = false ∧
    ((NewLineParseHelper (optDefsOf [("Source", "the-cloud")])).GetVal strictLib "Source"
      (NewLineData ['x'])).val = "the-cloud" ∧
    (((NewLineParseHelper (optDefsOf [("Source", "the-cloud")])).GetVal strictLib "Source"
        (NewLineData ['x'])).val
      = (NewLineParseHelper (optDefsOf [("Source", "the-cloud")])).optDefs "Source" ∧
    ((NewLineParseHelper (optDefsOf [("Source", "the-cloud")])).GetVal strictLib "Source"
      (NewLineData ['x'])).err = none ∧
    ((NewLineParseHelper (optDefsOf [("Source", "the-cloud")])).GetVal strictLib "Source"
      (NewLineData ['x'])).parses = 0 ∧
    ((NewLineParseHelper (optDefsOf [("Source", "the-cloud")])).GetVal strictLib "Source"
      (NewLineData ['x'])).data = NewLineData ['x'] ∧
    ((NewLineParseHelper (optDefsOf [("Source", "the-cloud")])).GetVal strictLib "Source"
      (NewLineData ['x'])).c = NewLineParseHelper (optDefsOf [("Source", "the-cloud")])) :=
  ⟨by decide, by decide, by decide,
   C9_literal_spec_returned strictLib (NewLineParseHelper (optDefsOf [("Source", "the-cloud")]))
     "Source" (NewLineData ['x']) (by decide) (by decide)⟩

/-- C10 (the code does not do this). `GetVal` never changes the `LineData` it
is given, so no parse is ever stored: two query fields evaluated against one
line, whose JSON decodes without error, call `json.Unmarshal` once each, and
the `iface` of the line is nil before and after. -/
theorem C10_line_parsed_on_every_query :
    (∀ (lib : Lib) (c : LineParseHelper) (n : String) (data : LineData),
      (c.GetVal lib n data).data = data) ∧
    ((NewLineParseHelper (optDefsOf [("id", "jp:id"), ("eventType", "jp:type")])).GetVal
      sampleLib "id" (NewLineData ['7'])).err = none ∧
    ((NewLineParseHelper (optDefsOf [("id", "jp:id"), ("eventType", "jp:type")])).GetVal
      sampleLib "id" (NewLineData ['7'])).parses = 1 ∧
    ((NewLineParseHelper (optDefsOf [("id", "jp:id"), ("eventType", "jp:type")])).GetVal
      sampleLib "id" (NewLineData ['7'])).data.iface.isNil = true ∧
    (((NewLineParseHelper (optDefsOf [("id", "jp:id"), ("eventType", "jp:type")])).GetVal
        sampleLib "id" (NewLineData ['7'])).c.GetVal sampleLib "eventType"
      ((NewLineParseHelper (optDefsOf [("id", "jp:id"), ("eventType", "jp:type")])).GetVal
        sampleLib "id" (NewLineData ['7'])).data).err = none ∧
    (((NewLineParseHelper (optDefsOf [("id", "jp:id"), ("eventType", "jp:type")])).GetVal
        sampleLib "id" (NewLineData ['7'])).c.GetVal sampleLib "eventType"
      ((NewLineParseHelper (optDefsOf [("id", "jp:id"), ("eventType", "jp:type")])).GetVal
        sampleLib "id" (NewLineData ['7'])).data).parses = 1 := by
  refine ⟨?_, by decide, by decide, by decide, by decide, by decide⟩
  intro lib c n data
  unfold LineParseHelper.GetVal
  dsimp only
  repeat' split
  all_goals rfl

/-! ## The cache never exceeds the maximum size -/

theorem Bounded.le {N : Nat} {w : World} (h : Bounded N w) : BoundedLe N w :=
  ⟨h.size, Nat.le_of_lt h.cache, h.sent⟩

theorem FlushEvents_boundedLe {N : Nat} {w : World} (h : BoundedLe N w) (o : Origin) :
    BoundedLe N (FlushEvents w o).2 := by
  refine ⟨h.size, h.cache, ?_⟩
  intro b hb
  simp only [FlushEvents, batches_append, batches, List.mem_append, List.mem_singleton] at hb
  rcases hb with hb | hb
  · exact h.sent b hb
  · subst hb
    simpa [cacheBytes] using h.cache

theorem FlushEvents_bounded {N : Nat} {w : World} (h : Bounded N w) (o : Origin) :
    Bounded N (FlushEvents w o).2 :=
  ⟨h.size, h.cache, (FlushEvents_boundedLe h.le o).sent⟩

theorem addEvent_length (N : Nat) (w : World) (data : Slice) (hN : 1 ≤ N)
    (hsize : w.p.MaxQueueSize = (N : Int)) (hlen : w.p.cache.length < N) :
    (addEvent w data).2.p.cache.length ≤ N ∧
    ((addEvent w data).1 = none → (addEvent w data).2.p.cache.length < N) := by
  unfold addEvent
  dsimp only
  split
  · rename_i hc
    rcases hc with hc | hc
    · simp at hc
    · rw [hsize] at hc
      have hc1 : (w.p.cache ++ [data]).length < N := by exact_mod_cast hc
      exact ⟨Nat.le_of_lt hc1, fun _ => hc1⟩
  · rcases hw : FlushEvents { w with p := { w.p with cache := w.p.cache ++ [data] } } Origin.size
      with ⟨r, w2⟩
    have hcache : w2.p.cache = w.p.cache ++ [data] := by
      have := congrArg (fun x => x.2.p.cache) hw
      simpa [FlushEvents] using this.symm
    cases r with
    | some err =>
      refine ⟨?_, (fun h => by cases h)⟩
      simp only [hcache, List.length_append, List.length_singleton]
      omega
    | none => exact ⟨by simp, fun _ => by simpa using hN⟩

theorem addEvent_bounded {N : Nat} {w : World} (hN : 1 ≤ N) (h : Bounded N w) (data : Slice) :
    BoundedLe N (addEvent w data).2 ∧
    ((addEvent w data).1 = none → Bounded N (addEvent w data).2) := by
  obtain ⟨hl1, hl2⟩ := addEvent_length N w data hN h.size h.cache
  have hb1 : BoundedLe N { w with p := { w.p with cache := w.p.cache ++ [data] } } :=
    ⟨h.size, by simpa using h.cache, h.sent⟩
  have hf := FlushEvents_boundedLe hb1 Origin.size
  have hsz : (addEvent w data).2.p.MaxQueueSize = (N : Int) ∧
      ∀ b ∈ batches (addEvent w data).2.log, b.length ≤ N := by
    unfold addEvent
    dsimp only
    split
    · exact ⟨h.size, h.sent⟩
    · rcases hw : FlushEvents { w with p := { w.p with cache := w.p.cache ++ [data] } }
        Origin.size with ⟨r, w2⟩
      rw [hw] at hf
      cases r <;> exact ⟨hf.size, hf.sent⟩
  exact ⟨⟨hsz.1, hl1, hsz.2⟩, fun hn => ⟨hsz.1, hl2 hn, hsz.2⟩⟩

theorem tick_boundedLe {N : Nat} {w : World} (h : BoundedLe N w) : BoundedLe N (tick w) := by
  have h2 := FlushEvents_boundedLe h Origin.tick
  unfold tick flush
  split
  · rcases hw : FlushEvents w Origin.tick with ⟨r, w2⟩
    rw [hw] at h2
    cases r with
    | some err => exact ⟨h2.size, h2.cache, h2.sent⟩
    | none => exact h2
  · exact h

theorem ticks_boundedLe {N : Nat} (n : Nat) :
    ∀ {w : World}, BoundedLe N w → BoundedLe N (ticks n w) := by
  induction n with
  | zero => intro w h; exact h
  | succ n ih => intro w h; exact ih (tick_boundedLe h)

theorem ticks_bounded {N : Nat} (n : Nat) {w : World} (h : Bounded N w) :
    Bounded N (ticks n w) := by
  obtain ⟨_, _, _, _, hp, _⟩ := ticks_log n w
  have h2 := ticks_boundedLe n h.le
  exact ⟨h2.size, by rw [hp]; exact h.cache, h2.sent⟩

theorem scanLoop_bounded {N : Nat} (hN : 1 ≤ N) (ctx : Nat → Bool) (sched : Nat → Nat)
    (steps : List (Mem × Slice)) : ∀ (k g : Nat) (w : World), Bounded N w →
      BoundedLe N (scanLoop ctx sched steps k g w).2.2.2 ∧
      ((∀ err, (scanLoop ctx sched steps k g w).1 ≠ LoopExit.ret err) →
        Bounded N (scanLoop ctx sched steps k g w).2.2.2) := by
  induction steps with
  | nil => intro k g w h; exact ⟨h.le, fun _ => h⟩
  | cons step rest ih =>
    intro k g w h
    have hg := ticks_bounded (sched g) h
    have h0 : Bounded N { ticks (sched g) w with
        mem := step.1,
        log := (ticks (sched g) w).log ++ [Event.scan (tokenOf step)] } :=
      ⟨hg.size, hg.cache, by simpa [batches_append, batches] using hg.sent⟩
    rw [scanLoop]
    split
    · exact ih k (g + 1) _ h0
    · obtain ⟨ha1, ha2⟩ := addEvent_bounded hN (ticks_bounded (sched (g + 1)) h0) step.2
      rcases hw : addEvent (ticks (sched (g + 1))
          { ticks (sched g) w with
            mem := step.1,
            log := (ticks (sched g) w).log ++ [Event.scan (tokenOf step)] }) step.2 with ⟨r, w1⟩
      rw [hw] at ha1 ha2
      cases r with
      | some err =>
        exact ⟨ticks_boundedLe (sched (g + 2)) ha1, fun hne => absurd rfl (hne err)⟩
      | none =>
        have h2 := ticks_bounded (sched (g + 2)) (ha2 rfl)
        simp only
        cases hfe : (ticks (sched (g + 2)) w1).flushErr with
        | some err => exact ⟨h2.le, fun _ => h2⟩
        | none =>
          simp only
          by_cases hc : ctx k = true
          · rw [if_pos hc]
            exact ⟨h2.le, fun _ => h2⟩
          · rw [if_neg hc]
            exact ih (k + 1) (g + 3) _ h2

theorem Run_bounded (N : Nat) (hN : 1 ≤ N) (p : Publisher) (ctx : Nat → Bool)
    (sched : Nat → Nat) (sc : Scanner) (hsize : p.MaxQueueSize = (N : Int))
    (hcache : p.cache = []) :
    (Run p ctx sched sc).p.cache.length ≤ N ∧
    (∀ b ∈ batches (Run p ctx sched sc).log, b.length ≤ N) ∧
    ((Run p ctx sched sc).err = none → (Run p ctx sched sc).p.cache.length < N) := by
  unfold Run
  by_cases hrun : p.running = true
  · simp [hrun, hcache, batches]
  · simp only [hrun, if_false, Bool.false_eq_true]
    have h0 : Bounded N
        ⟨{ p with running := true }, sc.mem, [], none, decide (p.FlushInterval ≠ 0)⟩ :=
      ⟨hsize, by simpa [hcache] using hN, by simp [batches]⟩
    obtain ⟨h1, h2⟩ := scanLoop_bounded hN ctx sched sc.steps 0 0 _ h0
    rcases hw : scanLoop ctx sched sc.steps 0 0
      ⟨{ p with running := true }, sc.mem, [], none, decide (p.FlushInterval ≠ 0)⟩
      with ⟨ex, k, g, w1⟩
    rw [hw] at h1 h2
    cases ex with
    | ret err => exact ⟨h1.cache, h1.sent, (fun h => by cases h)⟩
    | brk =>
      have h3 := FlushEvents_bounded
        (ticks_bounded (sched g) (h2 (fun err h => by cases h))) Origin.final
      simp only [flush]
      rcases hfw : FlushEvents (ticks (sched g) w1) Origin.final with ⟨r, w2⟩
      rw [hfw] at h3
      have h4 := ticks_bounded (sched (g + 1)) h3
      cases r <;> exact ⟨Nat.le_of_lt h3.cache, h4.sent, fun _ => h3.cache⟩
    | eof =>
      have hg := ticks_bounded (sched g) (h2 (fun err h => by cases h))
      have hg1 : Bounded N { ticks (sched g) w1 with mem := sc.last } :=
        ⟨hg.size, hg.cache, hg.sent⟩
      have h3 := FlushEvents_bounded (ticks_bounded (sched (g + 1)) hg1) Origin.final
      simp only [flush]
      rcases hfw : FlushEvents (ticks (sched (g + 1)) { ticks (sched g) w1 with mem := sc.last })
        Origin.final with ⟨r, w2⟩
      rw [hfw] at h3
      have h4 := ticks_bounded (sched (g + 2)) h3
      cases r <;> exact ⟨Nat.le_of_lt h3.cache, h4.sent, fun _ => h3.cache⟩

/-- C17. With maximum size `N ≥ 1`: an `addEvent` call on a cache below `N`
leaves at most `N` lines in it whatever the sink returns, and fewer than `N`
when it returns nil (so the next call again starts below `N`).  Hence in a run
that starts with an empty cache, whatever the sink, the timer and the context
do, no cache handed to the sink is longer than `N`, the cache left behind is
at most `N` long, and it is below `N` when `Run` returns nil. -/
theorem C17_cache_at_most_max (N : Nat) (w : World) (data : Slice) (p : Publisher)
    (ctx : Nat → Bool) (sched : Nat → Nat) (sc : Scanner)
    (hN : 1 ≤ N) (hsize : w.p.MaxQueueSize = (N : Int)) (hlen : w.p.cache.length < N)
    (hpsize : p.MaxQueueSize = (N : Int)) (hpcache : p.cache = []) :
    ((addEvent w data).2.p.cache.length ≤ N ∧
      ((addEvent w data).1 = none → (addEvent w data).2.p.cache.length < N)) ∧
    ((Run p ctx sched sc).p.cache.length ≤ N ∧
      (∀ b ∈ batches (Run p ctx sched sc).log, b.length ≤ N) ∧
      ((Run p ctx sched sc).err = none → (Run p ctx sched sc).p.cache.length < N)) :=
  ⟨addEvent_length N w data hN hsize hlen, Run_bounded N hN p ctx sched sc hpsize hpcache⟩

/-- C17 on a cache of one line with maximum size 2 and a sink that fails: the
second line fills the cache, the flush fails, and the cache holds 2 lines. -/
theorem C17_cache_at_most_max_witness :
    (addEvent ⟨⟨2, failingSink, 0, [⟨0, 0, 1⟩], true⟩, [['a', '\n', 'b']], [], none, false⟩
      ⟨0, 2, 1⟩).2.p.cache.length = 2 ∧
    (((addEvent ⟨⟨2, failingSink, 0, [⟨0, 0, 1⟩], true⟩, [['a', '\n', 'b']], [], none, false⟩
        ⟨0, 2, 1⟩).2.p.cache.length ≤ 2 ∧
      ((addEvent ⟨⟨2, failingSink, 0, [⟨0, 0, 1⟩], true⟩, [['a', '\n', 'b']], [], none, false⟩
          ⟨0, 2, 1⟩).1 = none →
        (addEvent ⟨⟨2, failingSink, 0, [⟨0, 0, 1⟩], true⟩, [['a', '\n', 'b']], [], none, false⟩
          ⟨0, 2, 1⟩).2.p.cache.length < 2)) ∧
    ((Run (newPublisher 2 failingSink 0) (fun _ => false) (fun _ => 0)
        (scannerOf [['a'], ['b'], ['c']])).p.cache.length ≤ 2 ∧
      (∀ b ∈ batches (Run (newPublisher 2 failingSink 0) (fun _ => false) (fun _ => 0)
        (scannerOf [['a'], ['b'], ['c']])).log, b.length ≤ 2) ∧
      ((Run (newPublisher 2 failingSink 0) (fun _ => false) (fun _ => 0)
          (scannerOf [['a'], ['b'], ['c']])).err = none →
        (Run (newPublisher 2 failingSink 0) (fun _ => false) (fun _ => 0)
          (scannerOf [['a'], ['b'], ['c']])).p.cache.length < 2))) :=
  ⟨by decide,
   C17_cache_at_most_max 2
     ⟨⟨2, failingSink, 0, [⟨0, 0, 1⟩], true⟩, [['a', '\n', 'b']], [], none, false⟩ ⟨0, 2, 1⟩
     (newPublisher 2 failingSink 0) (fun _ => false) (fun _ => 0)
     (scannerOf [['a'], ['b'], ['c']]) (by decide) rfl (by decide) rfl rfl⟩

/-- C18. For a field name that does not start with `jp:` and whose
specification is absent or empty (a Go map gives `""` for both), `GetVal`
returns the field name itself and no error, for every line and every library
behaviour, without parsing the line. -/
theorem C18_empty_spec_gives_field_name (lib : Lib) (c : LineParseHelper) (n : String)
    (data : LineData) (hn : HasPrefix n jmespathPrefix = false) (hspec : c.optDefs n = "") :
    (c.GetVal lib n data).val = n ∧ (c.GetVal lib n data).err = none ∧
    (c.GetVal lib n data).parses = 0 := by
  simp [LineParseHelper.GetVal, hspec, hn]

/-- C18 on the `time` field of splunk-pipe when no timestamp option is given. -/
theorem C18_empty_spec_gives_field_name_witness :
    HasPrefix "time" jmespathPrefix = false ∧
    (NewLineParseHelper (optDefsOf [("source", "the source"), ("time", "")])).optDefs "time" = "" ∧
    ((NewLineParseHelper (optDefsOf [("source", "the source"), ("time", "")])).GetVal strictLib
      "time" (NewLineData ['x'])).val = "time" ∧
    ((NewLineParseHelper (optDefsOf [("source", "the source"), ("time", "")])).GetVal strictLib
      "time" (NewLineData ['x'])).err = none ∧
    ((NewLineParseHelper (optDefsOf [("source", "the source"), ("time", "")])).GetVal strictLib
      "time" (NewLineData ['x'])).parses = 0 :=
  ⟨by decide, by decide,
   C18_empty_spec_gives_field_name strictLib
     (NewLineParseHelper (optDefsOf [("source", "the source"), ("time", "")])) "time"
     (NewLineData ['x']) (by decide) (by decide)⟩

/-! ## The endpoint -/

theorem contains_https (e : String) : strings.Contains ("https://" ++ e) "://" = true := by
  unfold strings.Contains
  rw [List.any_eq_true]
  refine ⟨"://".toList ++ e.toList, ?_, ?_⟩
  · rw [List.mem_tails]
    exact ⟨"https".toList, by simp [String.toList, String.data_append]⟩
  · simp [String.toList, List.isPrefixOf]

/-- C15. For an endpoint without `://`, `cliOptions.url` returns what it
returns for `https://` followed by that endpoint, in egpipe and in
splunk-pipe.  For an endpoint with `://` the string given to `url.Parse` is
the endpoint itself, and the URL whose rendering is returned has the scheme
and the host parsed from it. -/
theorem C15_default_scheme (net : NetURL) (c : Egpipe.cliOptions) (s : Splunkpipe.cliOptions)
    (e e1 : String) (u : URL) (he : strings.Contains e "://" = false)
    (he1 : strings.Contains e1 "://" = true) (hu : net.Parse e1 = Except.ok u) :
    Egpipe.cliOptions.url net { c with TopicEndpoint := e }
      = Egpipe.cliOptions.url net { c with TopicEndpoint := "https://" ++ e } ∧
    Splunkpipe.cliOptions.url net { s with Endpoint := e }
      = Splunkpipe.cliOptions.url net { s with Endpoint := "https://" ++ e } ∧
    (∃ u1, Egpipe.cliOptions.url net { c with TopicEndpoint := e1 }
        = Except.ok (net.URLString u1) ∧ u1.Scheme = u.Scheme ∧ u1.Host = u.Host) ∧
    (∃ u1, Splunkpipe.cliOptions.url net { s with Endpoint := e1 }
        = Except.ok (net.URLString u1) ∧ u1.Scheme = u.Scheme ∧ u1.Host = u.Host) := by
  refine ⟨?_, ?_, ?_, ?_⟩
  · simp only [Egpipe.cliOptions.url, he, contains_https, Bool.not_false, Bool.not_true,
      if_true, Bool.false_eq_true, if_false]
  · simp only [Splunkpipe.cliOptions.url, he, contains_https, Bool.not_false, Bool.not_true,
      if_true, Bool.false_eq_true, if_false]
  · simp only [Egpipe.cliOptions.url, he1, Bool.not_true, Bool.false_eq_true, if_false, hu]
    refine ⟨_, rfl, ?_, ?_⟩
    · by_cases hp : u.Path = "" <;> simp [hp]
    · by_cases hp : u.Path = "" <;> simp [hp]
  · simp only [Splunkpipe.cliOptions.url, he1, Bool.not_true, Bool.false_eq_true, if_false, hu]
    refine ⟨_, rfl, ?_, ?_⟩
    · by_cases hp : u.Path = "" <;> simp [hp]
    · by_cases hp : u.Path = "" <;> simp [hp]

/-- C15 under a simple `net/url`: the first and the last case of
`Test_cliOptions_url`. -/
theorem C15_default_scheme_witness :
    Egpipe.cliOptions.url sampleNetURL { unsetIdOptions with TopicEndpoint := "dummy.net" }
      = Except.ok "https://dummy.net/api/events?api-version=2018-01-01" ∧
    Egpipe.cliOptions.url sampleNetURL
        { unsetIdOptions with TopicEndpoint := "http://127.0.0.1:1234" }
      = Except.ok "http://127.0.0.1:1234/api/events?api-version=2018-01-01" ∧
    (Egpipe.cliOptions.url sampleNetURL { unsetIdOptions with TopicEndpoint := "dummy.net" }
      = Egpipe.cliOptions.url sampleNetURL
          { unsetIdOptions with TopicEndpoint := "https://" ++ "dummy.net" } ∧
    Splunkpipe.cliOptions.url sampleNetURL { sampleSplunkOptions with Endpoint := "dummy.net" }
      = Splunkpipe.cliOptions.url sampleNetURL
          { sampleSplunkOptions with Endpoint := "https://" ++ "dummy.net" } ∧
    (∃ u1, Egpipe.cliOptions.url sampleNetURL
        { unsetIdOptions with TopicEndpoint := "http://127.0.0.1:1234" }
        = Except.ok (sampleNetURL.URLString u1) ∧
        u1.Scheme = (⟨"http", "127.0.0.1:1234", "", "", ""⟩ : URL).Scheme ∧
        u1.Host = (⟨"http", "127.0.0.1:1234", "", "", ""⟩ : URL).Host) ∧
    (∃ u1, Splunkpipe.cliOptions.url sampleNetURL
        { sampleSplunkOptions with Endpoint := "http://127.0.0.1:1234" }
        = Except.ok (sampleNetURL.URLString u1) ∧
        u1.Scheme = (⟨"http", "127.0.0.1:1234", "", "", ""⟩ : URL).Scheme ∧
        u1.Host = (⟨"http", "127.0.0.1:1234", "", "", ""⟩ : URL).Host)) :=
  ⟨by decide, by decide,
   C15_default_scheme sampleNetURL unsetIdOptions sampleSplunkOptions "dummy.net"
     "http://127.0.0.1:1234" ⟨"http", "127.0.0.1:1234", "", "", ""⟩ (by decide) (by decide)
     (by decide)⟩

/-! ## Header options -/

theorem splitN2_no_colon (s : String) (h : ':' ∉ s.toList) : strings.SplitN2 s = [s] := by
  have hd : s.toList.dropWhile (fun c => c != ':') = [] := by
    rw [List.dropWhile_eq_nil_iff]
    intro x hx
    have : x ≠ ':' := fun hxc => h (hxc ▸ hx)
    simpa using this
  unfold strings.SplitN2
  rw [List.span_eq_take_drop, hd]

theorem dropWhile_colon (l : List Char) (h : ':' ∈ l) :
    l.dropWhile (fun c => c != ':') = ':' :: (l.dropWhile fun c => c != ':').drop 1 := by
  induction l with
  | nil => cases h
  | cons a l ih =>
    by_cases ha : a = ':'
    · subst ha
      simp [List.dropWhile]
    · have hmem : ':' ∈ l := by
        rcases List.mem_cons.1 h with h1 | h1
        · exact absurd h1.symm ha
        · exact h1
      have hne : (a != ':') = true := by simpa using ha
      simp only [List.dropWhile, hne]
      exact ih hmem

theorem splitN2_colon (s : String) (h : ':' ∈ s.toList) :
    strings.SplitN2 s = [beforeColon s, afterColon s] := by
  have hd := dropWhile_colon s.toList h
  unfold strings.SplitN2 beforeColon afterColon
  rw [List.span_eq_take_drop]
  generalize s.toList.dropWhile (fun c => c != ':') = d at hd ⊢
  cases d with
  | nil => cases hd
  | cons a d => simp

theorem before_after_colon (s : String) (h : ':' ∈ s.toList) :
    s.toList = (beforeColon s).toList ++ ':' :: (afterColon s).toList ∧
    ':' ∉ (beforeColon s).toList := by
  constructor
  · have h1 := List.takeWhile_append_dropWhile (fun c => c != ':') s.toList
    rw [dropWhile_colon s.toList h] at h1
    exact h1.symm
  · intro hmem
    have := List.mem_takeWhile_imp hmem
    simp at this

theorem headerLoop_ok (sys : Sys) (hs : List String) :
    ∀ (acc : Header), (∀ h ∈ hs, ':' ∈ h.toList) →
      headerLoop sys hs acc = Except.ok (acc ++ hs.map headerOf) := by
  induction hs with
  | nil => intro acc _; simp [headerLoop]
  | cons hdr rest ih =>
    intro acc hall
    have h1 := splitN2_colon hdr (hall hdr (by simp))
    rw [headerLoop, h1]
    simp only
    rw [ih _ (fun h hh => hall h (by simp [hh]))]
    simp [headerOf]

theorem headerLoop_error (sys : Sys) (hs : List String) :
    ∀ (acc : Header), (∃ h ∈ hs, ':' ∉ h.toList) →
      ∃ h ∈ hs, ':' ∉ h.toList ∧
        headerLoop sys hs acc = Except.error ("invalid header " ++ sys.Quote h) := by
  induction hs with
  | nil => intro acc hex; obtain ⟨h, hh, _⟩ := hex; cases hh
  | cons hdr rest ih =>
    intro acc hex
    by_cases hc : ':' ∈ hdr.toList
    · have h1 := splitN2_colon hdr hc
      have hex1 : ∃ h ∈ rest, ':' ∉ h.toList := by
        obtain ⟨h, hh, hn⟩ := hex
        rcases List.mem_cons.1 hh with rfl | hh
        · exact absurd hc hn
        · exact ⟨h, hh, hn⟩
      obtain ⟨h, hh, hn, he⟩ := ih (acc ++ [headerOf hdr]) hex1
      refine ⟨h, by simp [hh], hn, ?_⟩
      rw [headerLoop, h1]
      simpa [headerOf] using he
    · refine ⟨hdr, by simp, hc, ?_⟩
      rw [headerLoop, splitN2_no_colon hdr hc]

/-- C16. In egpipe and in splunk-pipe alike: if some header option holds no
colon, `cliOptions.eventSink` fails with the error `invalid header` naming
such an option; if every header option holds a colon, `eventSink` fails only
when `cliOptions.url` fails, with that error, and otherwise the headers it
sets are, in order, for each option the text before its first colon as name
and the text after that colon as value, both without surrounding white space. -/
theorem C16_invalid_header (sys : Sys) (net : NetURL) (c : Egpipe.cliOptions)
    (s : Splunkpipe.cliOptions) :
    ((∃ h ∈ c.Header, ':' ∉ h.toList) →
      ∃ h ∈ c.Header, ':' ∉ h.toList ∧
        c.eventSink sys net = Except.error ("invalid header " ++ sys.Quote h)) ∧
    ((∀ h ∈ c.Header, ':' ∈ h.toList) →
      (∀ err, c.eventSink sys net = Except.error err → c.url net = Except.error err) ∧
      (∀ e, c.eventSink sys net = Except.ok e → e.reqHeader = c.Header.map headerOf)) ∧
    ((∃ h ∈ s.Header, ':' ∉ h.toList) →
      ∃ h ∈ s.Header, ':' ∉ h.toList ∧
        s.eventSink sys net = Except.error ("invalid header " ++ sys.Quote h)) ∧
    ((∀ h ∈ s.Header, ':' ∈ h.toList) →
      (∀ err, s.eventSink sys net = Except.error err → s.url net = Except.error err) ∧
      (∀ e, s.eventSink sys net = Except.ok e → e.reqHeader = s.Header.map headerOf)) ∧
    (∀ h : String, ':' ∈ h.toList →
      h.toList = (beforeColon h).toList ++ ':' :: (afterColon h).toList ∧
      ':' ∉ (beforeColon h).toList) := by
  refine ⟨?_, ?_, ?_, ?_, before_after_colon⟩
  · intro hex
    obtain ⟨h, hh, hn, he⟩ := headerLoop_error sys c.Header [] hex
    exact ⟨h, hh, hn, by simp [Egpipe.cliOptions.eventSink, he]⟩
  · intro hall
    have hl := headerLoop_ok sys c.Header [] hall
    simp only [Egpipe.cliOptions.eventSink, hl, List.nil_append]
    cases hu : c.url net with
    | error e1 => simp
    | ok thURL =>
      refine ⟨fun err h => (by cases h), fun e h => ?_⟩
      cases h
      rfl
  · intro hex
    obtain ⟨h, hh, hn, he⟩ := headerLoop_error sys s.Header [] hex
    exact ⟨h, hh, hn, by simp [Splunkpipe.cliOptions.eventSink, he]⟩
  · intro hall
    have hl := headerLoop_ok sys s.Header [] hall
    simp only [Splunkpipe.cliOptions.eventSink, hl, List.nil_append]
    cases hu : s.url net with
    | error e1 => simp
    | ok thURL =>
      refine ⟨fun err h => (by cases h), fun e h => ?_⟩
      cases h
      rfl

/-- C16 on the header of `Test_run`, on a splunk-pipe header whose value holds
a colon, and on options with a header that holds no colon. -/
theorem C16_invalid_header_witness :
    unsetIdOptions.Header.map headerOf = [("foo", "bar")] ∧
    sampleSplunkOptions.Header.map headerOf = [("Authorization", "Splunk a:b")] ∧
    (∃ h ∈ badHeaderOptions.Header, ':' ∉ h.toList ∧
      badHeaderOptions.eventSink sampleSys sampleNetURL
        = Except.error ("invalid header " ++ sampleSys.Quote h)) ∧
    (∀ e, unsetIdOptions.eventSink sampleSys sampleNetURL = Except.ok e →
      e.reqHeader = unsetIdOptions.Header.map headerOf) ∧
    (∀ e, sampleSplunkOptions.eventSink sampleSys sampleNetURL = Except.ok e →
      e.reqHeader = sampleSplunkOptions.Header.map headerOf) :=
  ⟨by decide, by decide,
   (C16_invalid_header sampleSys sampleNetURL badHeaderOptions sampleSplunkOptions).1
     ⟨"nocolon", by decide, by decide⟩,
   ((C16_invalid_header sampleSys sampleNetURL unsetIdOptions sampleSplunkOptions).2.1
     (by decide)).2,
   ((C16_invalid_header sampleSys sampleNetURL unsetIdOptions sampleSplunkOptions).2.2.2.1
     (by decide)).2⟩

/-! ## Events of egpipe -/

theorem Egpipe.eventTime_uuids (sys : Sys) (lib : Lib) (b : Builder) (ld : LineData) :
    (Egpipe.eventTime sys lib b ld).b.uuids = b.uuids := by
  unfold Egpipe.eventTime
  repeat' split
  all_goals rfl

/-- C11 (the code does not do this). With the id option unset, `GetVal`
returns the field name `id`, so the test `ev.ID == ""` of `buildEvent` fails
and no uuid is generated: every event that is built has the id `id`.  Shown
for every builder whose `id` specification is empty, and on the options of
`Test_run` without the id option. -/
theorem C11_unset_id_gives_field_name :
    (∀ (sys : Sys) (lib : Lib) (b : Builder) (data : Line) (ev : Egpipe.event) (b1 : Builder),
      b.parseHelper.optDefs "id" = "" →
      Egpipe.buildEvent sys lib b data = (Except.ok ev, b1) →
      ev.ID = "id" ∧ b1.uuids = b.uuids) ∧
    ((unsetIdOptions.eventSink sampleSys sampleNetURL).toOption.map fun e =>
        (Egpipe.buildEvent sampleSys testLib e.builder quxLine).1)
      = some (Except.ok ⟨"id", "", "my subject", quxLine, "qux", "1608309835s+0ns", "1.0"⟩) ∧
    ((unsetIdOptions.eventSink sampleSys sampleNetURL).toOption.map fun e =>
        (Egpipe.buildEvent sampleSys testLib e.builder quxLine).2.uuids) = some 0 := by
  refine ⟨?_, by decide, by decide⟩
  intro sys lib b data ev b1 hid hbuild
  have hp : HasPrefix "id" jmespathPrefix = false := by decide
  have hg : b.parseHelper.GetVal lib "id" (NewLineData data)
      = ⟨"id", none, b.parseHelper, NewLineData data, 0⟩ := by
    simp [LineParseHelper.GetVal, hid, hp]
  have hne : ("id" = "") = False := by decide
  unfold Egpipe.buildEvent at hbuild
  simp only [hg, hne, if_false] at hbuild
  have hu := Egpipe.eventTime_uuids sys lib
    ⟨(b.parseHelper.GetVal lib "subject" (NewLineData data)).c.GetVal lib "dataVersion"
      (b.parseHelper.GetVal lib "subject" (NewLineData data)).data |>.c, b.clock, b.uuids⟩
    ((b.parseHelper.GetVal lib "subject" (NewLineData data)).c.GetVal lib "dataVersion"
      (b.parseHelper.GetVal lib "subject" (NewLineData data)).data).data
  repeat' split at hbuild
  all_goals first
    | (cases hbuild; done)
    | (simp only [Prod.mk.injEq, Except.ok.injEq] at hbuild
       obtain ⟨hev, hb1⟩ := hbuild
       subst hev
       subst hb1
       exact ⟨rfl, hu⟩)

theorem Egpipe.buildEvents_cons_ok (sys : Sys) (lib : Lib) (b b1 b2 : Builder) (data : Line)
    (rest : List Line) (ev : Egpipe.event) (evs : List Egpipe.event)
    (h1 : Egpipe.buildEvent sys lib b data = (Except.ok ev, b1))
    (h2 : Egpipe.buildEvents sys lib b1 rest = (Except.ok evs, b2)) :
    Egpipe.buildEvents sys lib b (data :: rest) = (Except.ok (ev :: evs), b2) := by
  rw [Egpipe.buildEvents, h1]
  simp only [h2]

theorem Egpipe.buildEvents_cons_inv (sys : Sys) (lib : Lib) (b b2 : Builder) (data : Line)
    (rest : List Line) (evs : List Egpipe.event)
    (h : Egpipe.buildEvents sys lib b (data :: rest) = (Except.ok evs, b2)) :
    ∃ ev evs1 b1, evs = ev :: evs1 ∧ Egpipe.buildEvent sys lib b data = (Except.ok ev, b1) ∧
      Egpipe.buildEvents sys lib b1 rest = (Except.ok evs1, b2) := by
  rw [Egpipe.buildEvents] at h
  rcases h1 : Egpipe.buildEvent sys lib b data with ⟨r, b1⟩
  rw [h1] at h
  cases r with
  | error err => cases h
  | ok ev =>
    simp only at h
    rcases h2 : Egpipe.buildEvents sys lib b1 rest with ⟨r2, b3⟩
    rw [h2] at h
    cases r2 with
    | error err => cases h
    | ok evs1 =>
      simp only [Prod.mk.injEq, Except.ok.injEq] at h
      obtain ⟨he, hb⟩ := h
      subst he
      subst hb
      exact ⟨ev, evs1, b1, rfl, rfl, h2⟩

theorem Egpipe.buildEvents_each (sys : Sys) (lib : Lib) (cache : List Line) :
    ∀ (b b2 : Builder) (evs : List Egpipe.event),
      Egpipe.buildEvents sys lib b cache = (Except.ok evs, b2) →
      evs.length = cache.length ∧
      ∀ (i : Nat) (data : Line), cache[i]? = some data →
        ∃ bi ev, evs[i]? = some ev ∧ (Egpipe.buildEvent sys lib bi data).1 = Except.ok ev := by
  induction cache with
  | nil =>
    intro b b2 evs h
    rw [Egpipe.buildEvents] at h
    cases h
    exact ⟨rfl, fun i data hi => by simp at hi⟩
  | cons d rest ih =>
    intro b b2 evs h
    obtain ⟨ev, evs1, b1, he, h1, h2⟩ := Egpipe.buildEvents_cons_inv sys lib b b2 d rest evs h
    obtain ⟨hl, hget⟩ := ih b1 b2 evs1 h2
    subst he
    refine ⟨by simp [hl], ?_⟩
    intro i data hi
    cases i with
    | zero =>
      simp only [List.getElem?_cons_zero, Option.some.injEq] at hi
      subst hi
      exact ⟨b, ev, by simp, by rw [h1]⟩
    | succ i =>
      simp only [List.getElem?_cons_succ] at hi
      obtain ⟨bi, ev1, hev, hb⟩ := hget i data hi
      exact ⟨bi, ev1, by simpa using hev, hb⟩

theorem Egpipe.buildEvents_fail (sys : Sys) (lib : Lib) (pre : List Line) :
    ∀ (b b1 : Builder) (evs : List Egpipe.event) (data : Line) (post : List Line) (err : Error),
      Egpipe.buildEvents sys lib b pre = (Except.ok evs, b1) →
      (Egpipe.buildEvent sys lib b1 data).1 = Except.error err →
      (Egpipe.buildEvents sys lib b (pre ++ data :: post)).1 = Except.error err := by
  induction pre with
  | nil =>
    intro b b1 evs data post err h1 h2
    rw [Egpipe.buildEvents] at h1
    cases h1
    rw [List.nil_append, Egpipe.buildEvents]
    rcases hb : Egpipe.buildEvent sys lib b data with ⟨r, b3⟩
    rw [hb] at h2
    simp only at h2
    subst h2
    rfl
  | cons d rest ih =>
    intro b b1 evs data post err h1 h2
    obtain ⟨ev, evs1, b3, he, h3, h4⟩ := Egpipe.buildEvents_cons_inv sys lib b b1 d rest evs h1
    have h5 := ih b3 b1 evs1 data post err h4 h2
    rw [List.cons_append, Egpipe.buildEvents, h3]
    simp only
    rcases hb : Egpipe.buildEvents sys lib b3 (rest ++ data :: post) with ⟨r, b4⟩
    rw [hb] at h5
    simp only at h5
    subst h5
    rfl

/-- C14. `FlushEvents` of egpipe returns nil only if an event was built for
every line of the batch, in batch order, and one POST request carrying the
encoding of exactly these events was answered with status 200.  It hands at
most one request to the HTTP client.  If `buildEvent` fails for a line, the
events of the lines before it having been built, `FlushEvents` returns that
error and transmits nothing. -/
theorem C14_flush_is_atomic (sys : Sys) (lib : Lib) (net : Egpipe.Net) (e : Egpipe.eventSink)
    (cache : Batch) :
    ((Egpipe.eventSink.FlushEvents sys lib net e cache).err = none →
      ∃ events buf req,
        (Egpipe.buildEvents sys lib e.builder cache).1 = Except.ok events ∧
        events.length = cache.length ∧
        (∀ (i : Nat) (data : Line), cache[i]? = some data →
          ∃ bi ev, events[i]? = some ev ∧
            (Egpipe.buildEvent sys lib bi data).1 = Except.ok ev) ∧
        net.Encode events = Except.ok buf ∧
        req.Method = "POST" ∧ req.URL = e.endpoint ∧ req.Body = buf ∧
        (Egpipe.eventSink.FlushEvents sys lib net e cache).sent = [req] ∧
        net.Do req = Except.ok 200) ∧
    (Egpipe.eventSink.FlushEvents sys lib net e cache).sent.length ≤ 1 ∧
    (∀ pre data post evs b1 err, cache = pre ++ data :: post →
      Egpipe.buildEvents sys lib e.builder pre = (Except.ok evs, b1) →
      (Egpipe.buildEvent sys lib b1 data).1 = Except.error err →
      (Egpipe.eventSink.FlushEvents sys lib net e cache).err = some err ∧
      (Egpipe.eventSink.FlushEvents sys lib net e cache).sent = []) := by
  refine ⟨?_, ?_, ?_⟩
  · unfold Egpipe.eventSink.FlushEvents
    rcases hb : Egpipe.buildEvents sys lib e.builder cache with ⟨r, b⟩
    cases r with
    | error err => intro h; cases h
    | ok events =>
      obtain ⟨hl, hget⟩ := Egpipe.buildEvents_each sys lib cache e.builder b events hb
      simp only
      cases henc : net.Encode events with
      | error err => intro h; cases h
      | ok buf =>
        simp only
        cases hreq : net.NewRequest e.endpoint with
        | some err => intro h; cases h
        | none =>
          simp only
          cases hdo : net.Do ⟨"POST", e.endpoint,
              e.reqHeader ++ [("Content-Type", "application/json; charset=utf-8")], buf⟩ with
          | error err => intro h; cases h
          | ok status =>
            simp only
            by_cases hs : status = 200
            · subst hs
              intro _
              exact ⟨events, buf, _, rfl, hl, hget, henc, rfl, rfl, rfl, by simp, hdo⟩
            · rw [if_pos hs]
              intro h
              cases h
  · unfold Egpipe.eventSink.FlushEvents
    repeat' split
    all_goals simp
  · intro pre data post evs b1 err hc h1 h2
    have hf := Egpipe.buildEvents_fail sys lib pre e.builder b1 evs data post err h1 h2
    rw [← hc] at hf
    unfold Egpipe.eventSink.FlushEvents
    rcases hb : Egpipe.buildEvents sys lib e.builder cache with ⟨r, b⟩
    rw [hb] at hf
    simp only at hf
    subst hf
    exact ⟨rfl, rfl⟩

/-- C14 on a batch of two lines: with a server that answers 200 one request
carries both events; with a server that answers 500 the call fails; with a
second line that is not JSON nothing is sent. -/
theorem C14_flush_is_atomic_witness :
    (Egpipe.eventSink.FlushEvents sampleSys testLib sampleNet
        ⟨[("foo", "bar")], "https://example.net/api/events", testBuilder⟩
        [quxLine, quxLine]).err = none ∧
    (Egpipe.eventSink.FlushEvents sampleSys testLib sampleNet
        ⟨[("foo", "bar")], "https://example.net/api/events", testBuilder⟩
        [quxLine, quxLine]).sent
      = [⟨"POST", "https://example.net/api/events",
          [("foo", "bar"), ("Content-Type", "application/json; charset=utf-8")], "qux,qux"⟩] ∧
    (Egpipe.eventSink.FlushEvents sampleSys testLib rejectingNet
        ⟨[("foo", "bar")], "https://example.net/api/events", testBuilder⟩
        [quxLine, quxLine]).err = some "not OK, statusCode: 500" ∧
    (Egpipe.eventSink.FlushEvents sampleSys pickyLib sampleNet
        ⟨[("foo", "bar")], "https://example.net/api/events", testBuilder⟩
        [quxLine, ['b', 'a', 'd']]).err = some "invalid character" ∧
    (Egpipe.eventSink.FlushEvents sampleSys pickyLib sampleNet
        ⟨[("foo", "bar")], "https://example.net/api/events", testBuilder⟩
        [quxLine, ['b', 'a', 'd']]).sent = [] ∧
    (Egpipe.eventSink.FlushEvents sampleSys testLib sampleNet
        ⟨[("foo", "bar")], "https://example.net/api/events", testBuilder⟩
        [quxLine, quxLine]).sent.length ≤ 1 :=
  ⟨by decide, by decide, by decide, by decide, by decide,
   (C14_flush_is_atomic sampleSys testLib sampleNet
     ⟨[("foo", "bar")], "https://example.net/api/events", testBuilder⟩
     [quxLine, quxLine]).2.1⟩

/-! ## Decimal digits -/

theorem digitsRev_lt (fuel : Nat) : ∀ (n d : Nat), d ∈ digitsRev fuel n → d < 10 := by
  induction fuel with
  | zero => intro n d h; simp [digitsRev] at h
  | succ fuel ih =>
    intro n d h
    rw [digitsRev] at h
    split at h
    · simp only [List.mem_singleton] at h
      omega
    · rcases List.mem_cons.1 h with h1 | h1
      · omega
      · exact ih _ d h1

theorem digitChar_isDigit (d : Nat) (h : d < 10) : isDigit (digitChar d) = true := by
  interval_cases d <;> decide

theorem digitChar_val (d : Nat) (h : d < 10) : (digitChar d).toNat - 48 = d := by
  interval_cases d <;> decide

theorem formatUint_digits (n : Nat) : ∀ c ∈ formatUint n, isDigit c = true := by
  intro c hc
  simp only [formatUint, List.mem_map, List.mem_reverse] at hc
  obtain ⟨d, hd, rfl⟩ := hc
  exact digitChar_isDigit d (digitsRev_lt _ _ d hd)

theorem digitsRev_value (fuel : Nat) :
    ∀ n, n < fuel → (digitsRev fuel n).foldr (fun d a => a * 10 + d) 0 = n := by
  induction fuel with
  | zero => intro n h; omega
  | succ fuel ih =>
    intro n h
    rw [digitsRev]
    split
    · simp
    · simp only [List.foldr_cons]
      rw [ih (n / 10) (by omega)]
      omega

theorem foldl_digitChar (ms : List Nat) : ∀ acc, (∀ d ∈ ms, d < 10) →
    (ms.map digitChar).foldl (fun a c => a * 10 + (c.toNat - 48)) acc
      = ms.foldl (fun a d => a * 10 + d) acc := by
  induction ms with
  | nil => intro acc _; rfl
  | cons d ms ih =>
    intro acc hd
    simp only [List.map_cons, List.foldl_cons, digitChar_val d (hd d (by simp))]
    exact ih _ (fun x hx => hd x (by simp [hx]))

theorem decimalValue_formatUint (n : Nat) : decimalValue (formatUint n) = n := by
  unfold decimalValue formatUint
  rw [foldl_digitChar _ 0 (fun d hd => digitsRev_lt _ _ d (List.mem_reverse.1 hd)),
    List.foldl_reverse]
  exact digitsRev_value (n + 1) n (by omega)

/-! ## The verb `%.0f` -/

theorem roundHalfEven_spec (num den : Nat) (hden : 0 < den) :
    2 * (den * roundHalfEven num den) ≤ 2 * num + den ∧
    2 * num ≤ 2 * (den * roundHalfEven num den) + den ∧
    ((2 * (den * roundHalfEven num den) = 2 * num + den ∨
        2 * num = 2 * (den * roundHalfEven num den) + den) →
      roundHalfEven num den % 2 = 0) := by
  have hnum := Nat.div_add_mod num den
  have hr := Nat.mod_lt num hden
  unfold roundHalfEven
  generalize num / den = q at *
  generalize num % den = r at *
  have hsucc : den * (q + 1) = den * q + den := Nat.mul_succ den q
  split_ifs with h1 h2 h3
  · generalize den * q = P at *
    omega
  · rw [hsucc]
    generalize den * q = P at *
    omega
  · generalize den * q = P at *
    omega
  · rw [hsucc]
    generalize den * q = P at *
    omega

theorem magnitude_eq (mant : Nat) (exp : Int) :
    Float64.magnitude mant exp
      = ((mant * 2 ^ exp.toNat : Nat) : Rat) / ((2 ^ (-exp).toNat : Nat) : Rat) := by
  unfold Float64.magnitude
  cases exp with
  | ofNat n =>
    have h1 : (-Int.ofNat n).toNat = 0 := by
      cases n with
      | zero => rfl
      | succ n => rfl
    rw [h1]
    simp
  | negSucc n =>
    have h1 : (-Int.negSucc n).toNat = n + 1 := rfl
    have h2 : (Int.negSucc n).toNat = 0 := rfl
    rw [h1, h2, zpow_negSucc]
    simp [div_eq_mul_inv]

theorem nearest_of_spec (num den m : Nat) (hden : 0 < den)
    (h1 : 2 * (den * m) ≤ 2 * num + den) (h2 : 2 * num ≤ 2 * (den * m) + den)
    (h3 : (2 * (den * m) = 2 * num + den ∨ 2 * num = 2 * (den * m) + den) → m % 2 = 0) :
    |(m : Rat) - (num : Rat) / (den : Rat)| ≤ 1 / 2 ∧
    (|(m : Rat) - (num : Rat) / (den : Rat)| = 1 / 2 → m % 2 = 0) := by
  have hD : (0 : Rat) < (den : Rat) := by exact_mod_cast hden
  have q1 : 2 * ((den : Rat) * (m : Rat)) ≤ 2 * (num : Rat) + (den : Rat) := by exact_mod_cast h1
  have q2 : 2 * (num : Rat) ≤ 2 * ((den : Rat) * (m : Rat)) + (den : Rat) := by exact_mod_cast h2
  have hx : (num : Rat) / (den : Rat) * (den : Rat) = (num : Rat) := div_mul_cancel₀ _ (ne_of_gt hD)
  constructor
  · rw [abs_sub_le_iff]
    constructor
    · by_contra hc
      push_neg at hc
      have := mul_lt_mul_of_pos_right hc hD
      nlinarith
    · by_contra hc
      push_neg at hc
      have := mul_lt_mul_of_pos_right hc hD
      nlinarith
  · intro habs
    apply h3
    rcases abs_eq (by norm_num : (0 : Rat) ≤ 1 / 2) |>.1 habs with he | he
    · left
      have h4 : ((m : Rat) - (num : Rat) / (den : Rat)) * (den : Rat) = 1 / 2 * (den : Rat) := by
        rw [he]
      have h5 : 2 * ((den : Rat) * (m : Rat)) = 2 * (num : Rat) + (den : Rat) := by
        nlinarith
      exact_mod_cast h5
    · right
      have h4 : ((m : Rat) - (num : Rat) / (den : Rat)) * (den : Rat)
          = -(1 / 2) * (den : Rat) := by
        rw [he]
      have h5 : 2 * (num : Rat) = 2 * ((den : Rat) * (m : Rat)) + (den : Rat) := by
        nlinarith
      exact_mod_cast h5

theorem sprintf0f_finite (neg : Bool) (mant : Nat) (exp : Int) :
    ∃ m : Nat,
      fmt.Sprintf0f (Float64.finite neg mant exp)
        = String.mk ((if neg then ['-'] else []) ++ formatUint m) ∧
      |(m : Rat) - Float64.magnitude mant exp| ≤ 1 / 2 ∧
      (|(m : Rat) - Float64.magnitude mant exp| = 1 / 2 → m % 2 = 0) := by
  have hden : 0 < 2 ^ (-exp).toNat := Nat.pow_pos (by decide)
  obtain ⟨h1, h2, h3⟩ := roundHalfEven_spec (mant * 2 ^ exp.toNat) (2 ^ (-exp).toNat) hden
  refine ⟨roundHalfEven (mant * 2 ^ exp.toNat) (2 ^ (-exp).toNat), rfl, ?_⟩
  rw [magnitude_eq]
  exact nearest_of_spec _ _ _ hden h1 h2 h3

theorem sprintf0f_int (n : Int) : fmt.Sprintf0f (Float64.ofInt n) = strconv.FormatInt n := by
  have hr : ∀ k : Nat, roundHalfEven (k * 2 ^ (0 : Int).toNat) (2 ^ (-(0 : Int)).toNat) = k := by
    intro k
    simp [roundHalfEven, Nat.mod_one]
  simp only [Float64.ofInt, fmt.Sprintf0f, strconv.FormatInt, formatInt, hr]
  by_cases h : n < 0 <;> simp [h]

theorem nat_of_near {m k : Nat} (h : |(m : Rat) - (k : Rat)| ≤ 1 / 2) : m = k := by
  have h1 : |((m : Int) - (k : Int) : Int)| < 1 := by
    have h2 : (((|((m : Int) - (k : Int) : Int)| : Int)) : Rat) < ((1 : Int) : Rat) := by
      push_cast
      calc |(m : Rat) - (k : Rat)| ≤ 1 / 2 := h
        _ < 1 := by norm_num
    exact_mod_cast h2
  have h3 := Int.abs_lt_one_iff.1 h1
  omega

theorem sprintf0f_whole (neg : Bool) (mant : Nat) (exp : Int) (k : Nat)
    (h : Float64.magnitude mant exp = (k : Rat)) :
    fmt.Sprintf0f (Float64.finite neg mant exp)
      = String.mk ((if neg then ['-'] else []) ++ formatUint k) := by
  obtain ⟨m, hm, hnear, _⟩ := sprintf0f_finite neg mant exp
  rw [h] at hnear
  rw [hm, nat_of_near hnear]

/-- C13 as stated fails: the query result negative zero, which JSON `-0`
decodes to, is the integer-valued number 0 and is rendered `-0`, not `0`; and
the query result NaN is rendered `NaN`, which is no decimal numeral. -/
theorem C13_counterexample :
    jmespathString testLib (fun _ => Except.ok (Value.float64 (Float64.finite true 0 0)))
      Value.nil = ("-0", none) ∧
    Float64.magnitude 0 0 = 0 ∧
    strconv.FormatInt 0 = "0" ∧
    jmespathString testLib (fun _ => Except.ok (Value.float64 Float64.nan)) Value.nil
      = ("NaN", none) ∧
    ¬ (∀ c ∈ "NaN".toList, c = '-' ∨ isDigit c = true) :=
  ⟨by decide, by simp [Float64.magnitude], by decide, by decide, by decide⟩

/-- C13, amended. `jmespathString` returns a string result unchanged, a
`float64` result as `%.0f` renders it and any other result as `%v` renders it,
each time with a nil error; its only error is the one of `Search`.  The verb
`%.0f` renders a finite value as a minus sign, when the sign bit is set,
followed by the decimal numeral of the integer nearest to the magnitude, the
even one when two are equally near: digits only, no decimal point and no
exponent.  So a value whose magnitude is the whole number `k` is rendered with
the numeral of `k`, and the integer `n` as the decimal numeral of `n` (zero
with the sign bit set is rendered `-0`).  NaN and the infinities are rendered
`NaN`, `+Inf` and `-Inf`. -/
theorem C13_query_result_as_string (lib : Lib) (jp : JMESPath) (data : Value) :
    (∀ s, jp data = Except.ok (Value.str s) → jmespathString lib jp data = (s, none)) ∧
    (∀ v, jp data = Except.ok (Value.float64 v) →
      jmespathString lib jp data = (lib.Sprintf0f v, none)) ∧
    (∀ val, jp data = Except.ok val → (∀ s, val ≠ Value.str s) → (∀ v, val ≠ Value.float64 v) →
      jmespathString lib jp data = (lib.Sprintfv val, none)) ∧
    (∀ val, jp data = Except.ok val → (jmespathString lib jp data).2 = none) ∧
    (∀ err, jp data = Except.error err → jmespathString lib jp data = ("", some err)) ∧
    (∀ (neg : Bool) (mant : Nat) (exp : Int), ∃ m : Nat,
      fmt.Sprintf0f (Float64.finite neg mant exp)
        = String.mk ((if neg then ['-'] else []) ++ formatUint m) ∧
      |(m : Rat) - Float64.magnitude mant exp| ≤ 1 / 2 ∧
      (|(m : Rat) - Float64.magnitude mant exp| = 1 / 2 → m % 2 = 0)) ∧
    (∀ m : Nat, (∀ c ∈ formatUint m, isDigit c = true) ∧ decimalValue (formatUint m) = m) ∧
    (∀ (neg : Bool) (mant : Nat) (exp : Int) (k : Nat), Float64.magnitude mant exp = (k : Rat) →
      fmt.Sprintf0f (Float64.finite neg mant exp)
        = String.mk ((if neg then ['-'] else []) ++ formatUint k)) ∧
    (∀ n : Int, fmt.Sprintf0f (Float64.ofInt n) = strconv.FormatInt n) ∧
    fmt.Sprintf0f (Float64.finite true 0 0) = "-0" ∧
    fmt.Sprintf0f Float64.nan = "NaN" ∧
    fmt.Sprintf0f (Float64.inf false) = "+Inf" ∧
    fmt.Sprintf0f (Float64.inf true) = "-Inf" ∧
    (lib.Sprintf0f = fmt.Sprintf0f → ∀ n : Int,
      jp data = Except.ok (Value.float64 (Float64.ofInt n)) →
        jmespathString lib jp data = (strconv.FormatInt n, none)) := by
  refine ⟨?_, ?_, ?_, ?_, ?_, sprintf0f_finite,
    fun m => ⟨formatUint_digits m, decimalValue_formatUint m⟩, sprintf0f_whole, sprintf0f_int,
    by decide, rfl, rfl, rfl, ?_⟩
  rotate_right
  · intro hfmt n h
    simp [jmespathString, h, hfmt, sprintf0f_int]
  · intro s h
    simp [jmespathString, h]
  · intro v h
    simp [jmespathString, h]
  · intro val h hs hv
    cases val with
    | str s => exact absurd rfl (hs s)
    | float64 v => exact absurd rfl (hv v)
    | nil => simp [jmespathString, h]
    | bool b => simp [jmespathString, h]
    | array xs => simp [jmespathString, h]
    | object kv => simp [jmespathString, h]
  · intro val h
    cases val <;> simp [jmespathString, h]
  · intro err h
    simp [jmespathString, h]

/-- C13, amended, on the three kinds of result: the number of `Test_run`, and
the halves 1/2, 3/2, 5/2 and -7/2, rendered `0`, `2`, `2` and `-4`. -/
theorem C13_query_result_as_string_witness :
    jmespathString testLib (fun _ => Except.ok (Value.str "qux")) Value.nil = ("qux", none) ∧
    jmespathString testLib (fun _ => Except.ok (Value.float64 (Float64.ofInt 1608309835000)))
      Value.nil = ("1608309835000", none) ∧
    jmespathString testLib (fun _ => Except.ok (Value.float64 (Float64.finite false 1 (-1))))
      Value.nil = ("0", none) ∧
    jmespathString testLib (fun _ => Except.ok (Value.float64 (Float64.finite false 3 (-1))))
      Value.nil = ("2", none) ∧
    jmespathString testLib (fun _ => Except.ok (Value.float64 (Float64.finite false 5 (-1))))
      Value.nil = ("2", none) ∧
    jmespathString testLib (fun _ => Except.ok (Value.float64 (Float64.finite true 7 (-1))))
      Value.nil = ("-4", none) ∧
    jmespathString testLib (fun _ => Except.ok (Value.float64 (Float64.finite false 5 (-1))))
      Value.nil = (testLib.Sprintf0f (Float64.finite false 5 (-1)), none) ∧
    jmespathString testLib (fun _ => Except.ok Value.nil) Value.nil = ("<nil>", none) ∧
    strconv.FormatInt 1608309835000 = "1608309835000" ∧
    fmt.Sprintf0f (Float64.ofInt 1608309835000) = strconv.FormatInt 1608309835000 ∧
    jmespathString testLib
        (fun _ => Except.ok (Value.float64 (Float64.ofInt 1608309835000))) Value.nil
      = (strconv.FormatInt 1608309835000, none) :=
  ⟨by decide, by decide, by decide, by decide, by decide, by decide,
   (C13_query_result_as_string testLib
     (fun _ => Except.ok (Value.float64 (Float64.finite false 5 (-1))))
     Value.nil).2.1 (Float64.finite false 5 (-1)) rfl,
   by decide, by decide,
   (C13_query_result_as_string testLib (fun _ => Except.ok Value.nil)
     Value.nil).2.2.2.2.2.2.2.2.1 1608309835000,
   (C13_query_result_as_string testLib
     (fun _ => Except.ok (Value.float64 (Float64.ofInt 1608309835000)))
     Value.nil).2.2.2.2.2.2.2.2.2.2.2.2.2 rfl 1608309835000 rfl⟩

/-! ## Parsing a decimal numeral gives the number back -/

theorem formatUint_ne_nil (n : Nat) : formatUint n ≠ [] := by
  unfold formatUint
  rw [digitsRev]
  split <;> simp

theorem foldl_digits_ge (ms : List Nat) :
    ∀ acc, acc ≤ ms.foldl (fun a d => a * 10 + d) acc := by
  induction ms with
  | nil => intro acc; exact Nat.le_refl _
  | cons d ms ih =>
    intro acc
    have := ih (acc * 10 + d)
    simp only [List.foldl_cons]
    omega

theorem parseUintLoop_digits (ms : List Nat) :
    ∀ acc, (∀ d ∈ ms, d < 10) → ms.foldl (fun a d => a * 10 + d) acc < 2 ^ 64 →
      parseUintLoop (ms.map digitChar) acc
        = Except.ok (ms.foldl (fun a d => a * 10 + d) acc) := by
  induction ms with
  | nil => intro acc _ _; rfl
  | cons d ms ih =>
    intro acc hd hlt
    have hd10 : d < 10 := hd d (by simp)
    have hge := foldl_digits_ge ms (acc * 10 + d)
    simp only [List.foldl_cons] at hlt
    have hnot : ¬ (2 ^ 64 ≤ acc * 10 + d) := by omega
    rw [List.map_cons, parseUintLoop]
    simp only [digitChar_isDigit d hd10, digitChar_val d hd10, Bool.not_true, Bool.false_eq_true,
      if_false, hnot, List.foldl_cons]
    exact ih _ (fun x hx => hd x (by simp [hx])) hlt

theorem ParseUint_formatUint (n : Nat) (h : n < 2 ^ 64) : ParseUint (formatUint n) = Except.ok n := by
  have hv := digitsRev_value (n + 1) n (by omega)
  have hf : (digitsRev (n + 1) n).reverse.foldl (fun a d => a * 10 + d) 0 = n := by
    rw [List.foldl_reverse]
    exact hv
  unfold ParseUint
  rw [if_neg (formatUint_ne_nil n)]
  unfold formatUint
  rw [parseUintLoop_digits _ 0 (fun d hd => digitsRev_lt _ _ d (List.mem_reverse.1 hd))
    (by rw [hf]; exact h), hf]

theorem isDigit_not_sign (c : Char) (h : isDigit c = true) : c ≠ '+' ∧ c ≠ '-' := by
  constructor
  · rintro rfl
    exact absurd h (by decide)
  · rintro rfl
    exact absurd h (by decide)

theorem ParseInt_FormatInt (v : Int) (hlo : -2 ^ 63 ≤ v) (hhi : v < 2 ^ 63) :
    strconv.ParseInt (strconv.FormatInt v) = Except.ok v := by
  have hu := ParseUint_formatUint v.natAbs (by omega)
  have hl : (strconv.FormatInt v).toList = formatInt v := rfl
  unfold strconv.ParseInt
  rw [hl]
  by_cases hneg : v < 0
  · simp only [formatInt, hneg, if_true]
    have h1 : ¬ (('-' : Char) = '+') := by decide
    rw [if_neg h1]
    simp only [parseSigned, hu, if_true]
    rw [if_neg (by omega)]
    congr 1
    omega
  · simp only [formatInt, hneg, if_false]
    cases hf : formatUint v.natAbs with
    | nil => exact absurd hf (formatUint_ne_nil _)
    | cons c r =>
      have hc := isDigit_not_sign c (formatUint_digits v.natAbs c (by rw [hf]; simp))
      simp only
      rw [if_neg hc.1, if_neg hc.2, ← hf]
      simp only [parseSigned, hu, Bool.false_eq_true, if_false]
      rw [if_neg (by omega)]
      congr 1
      omega

theorem tmod_1000_bounds (v : Int) : -1000 < v.tmod 1000 ∧ v.tmod 1000 < 1000 := by
  refine ⟨?_, Int.tmod_lt_of_pos v (by decide)⟩
  rcases Int.le_total 0 v with h | h
  · have := Int.tmod_nonneg 1000 h
    omega
  · obtain ⟨n, rfl⟩ := Int.exists_eq_neg_ofNat h
    cases n with
    | zero => decide
    | succ n =>
      have h1 : (-((n + 1 : Nat) : Int)).tmod 1000 = -(((n + 1) % 1000 : Nat) : Int) := rfl
      rw [h1]
      omega

theorem wrapInt64_of_fits (x : Int) (h1 : -2 ^ 63 ≤ x) (h2 : x < 2 ^ 63) : wrapInt64 x = x := by
  unfold wrapInt64
  omega

/-- C12. Whenever `GetVal` yields the decimal numeral of a 64-bit integer `v`
for the time field, `eventTime` of egpipe returns the rendering of
`time.Unix(secs, nanos)` and `eventTime` of eventbridge-pipe that time itself,
with `secs = v / 1000` and `nanos = (v % 1000) * 1000000` in Go's truncated
division.  These satisfy `secs * 10^9 + nanos = v * 10^6`, neither computation
overflows `int64`, and for `v ≥ 0` they are `⌊v/1000⌋` and `(v mod 1000) * 10^6`. -/
theorem C12_eventTime_of_millis (sys : Sys) (lib : Lib) (b b1 : Builder) (ld ld1 : LineData)
    (v : Int) (hlo : -2 ^ 63 ≤ v) (hhi : v < 2 ^ 63)
    (hval : (b.parseHelper.GetVal lib "eventTime" ld).val = strconv.FormatInt v)
    (herr : (b.parseHelper.GetVal lib "eventTime" ld).err = none)
    (hval1 : (b1.parseHelper.GetVal lib "Time" ld1).val = strconv.FormatInt v)
    (herr1 : (b1.parseHelper.GetVal lib "Time" ld1).err = none) :
    (Egpipe.eventTime sys lib b ld).val = sys.Format ⟨v.tdiv 1000, v.tmod 1000 * 1000000⟩ ∧
    (Egpipe.eventTime sys lib b ld).err = none ∧
    (Ebpipe.eventTime sys lib b1 ld1).val = some ⟨v.tdiv 1000, v.tmod 1000 * 1000000⟩ ∧
    (Ebpipe.eventTime sys lib b1 ld1).err = none ∧
    v.tdiv 1000 * 10 ^ 9 + v.tmod 1000 * 1000000 = v * 10 ^ 6 ∧
    wrapInt64 (v.tmod 1000 * 1000000) = v.tmod 1000 * 1000000 ∧
    (-2 ^ 63 ≤ v.tdiv 1000 ∧ v.tdiv 1000 < 2 ^ 63) ∧
    (-10 ^ 9 < v.tmod 1000 * 1000000 ∧ v.tmod 1000 * 1000000 < 10 ^ 9) ∧
    (0 ≤ v → v.tdiv 1000 = v / 1000 ∧ v.tmod 1000 * 1000000 = v % 1000 * 10 ^ 6) := by
  have hparse := ParseInt_FormatInt v hlo hhi
  have hb := tmod_1000_bounds v
  have hid := Int.tdiv_add_tmod v 1000
  have hwrap : wrapInt64 (v.tmod 1000 * 1000000) = v.tmod 1000 * 1000000 :=
    wrapInt64_of_fits _ (by omega) (by omega)
  have hpnow : strconv.ParseInt "now" = Except.error "invalid syntax" := by decide
  have hpempty : strconv.ParseInt "" = Except.error "invalid syntax" := by decide
  have hnow : strconv.FormatInt v ≠ "now" := by
    intro h
    rw [h, hpnow] at hparse
    cases hparse
  have hempty : strconv.FormatInt v ≠ "" := by
    intro h
    rw [h, hpempty] at hparse
    cases hparse
  refine ⟨?_, ?_, ?_, ?_, by linarith, hwrap, ⟨by omega, by omega⟩, ⟨by omega, by omega⟩, ?_⟩
  · simp only [Egpipe.eventTime, herr, hval, if_neg hnow, hparse, hwrap]
  · simp only [Egpipe.eventTime, herr, hval, if_neg hnow, hparse]
  · simp only [Ebpipe.eventTime, herr1, hval1, if_neg hnow, if_neg hempty, hparse, hwrap]
  · simp only [Ebpipe.eventTime, herr1, hval1, if_neg hnow, if_neg hempty, hparse]
  · intro h0
    rw [Int.tdiv_eq_ediv h0 (by decide), Int.tmod_eq_emod h0 (by decide)]
    exact ⟨rfl, by norm_num⟩

/-- C12 on the time of `Test_eventBuilder_buildEvent`: 1608309835000 gives
1608309835 seconds and 0 nanoseconds. -/
theorem C12_eventTime_of_millis_witness :
    (1608309835000 : Int).tdiv 1000 = 1608309835 ∧
    (1608309835000 : Int).tmod 1000 * 1000000 = 0 ∧
    (Ebpipe.eventTime sampleSys strictLib
      ⟨NewLineParseHelper (optDefsOf [("Time", "1608309835000")]), 0, 0⟩
      (NewLineData ['x'])).val = some ⟨1608309835, 0⟩ ∧
    ((Egpipe.eventTime sampleSys strictLib
      ⟨NewLineParseHelper (optDefsOf [("eventTime", "1608309835000")]), 0, 0⟩
      (NewLineData ['x'])).val
      = sampleSys.Format ⟨(1608309835000 : Int).tdiv 1000,
          (1608309835000 : Int).tmod 1000 * 1000000⟩ ∧
    (Egpipe.eventTime sampleSys strictLib
      ⟨NewLineParseHelper (optDefsOf [("eventTime", "1608309835000")]), 0, 0⟩
      (NewLineData ['x'])).err = none ∧
    (Ebpipe.eventTime sampleSys strictLib
      ⟨NewLineParseHelper (optDefsOf [("Time", "1608309835000")]), 0, 0⟩
      (NewLineData ['x'])).val
      = some ⟨(1608309835000 : Int).tdiv 1000, (1608309835000 : Int).tmod 1000 * 1000000⟩ ∧
    (Ebpipe.eventTime sampleSys strictLib
      ⟨NewLineParseHelper (optDefsOf [("Time", "1608309835000")]), 0, 0⟩
      (NewLineData ['x'])).err = none ∧
    (1608309835000 : Int).tdiv 1000 * 10 ^ 9 + (1608309835000 : Int).tmod 1000 * 1000000
      = 1608309835000 * 10 ^ 6 ∧
    wrapInt64 ((1608309835000 : Int).tmod 1000 * 1000000)
      = (1608309835000 : Int).tmod 1000 * 1000000 ∧
    (-2 ^ 63 ≤ (1608309835000 : Int).tdiv 1000 ∧ (1608309835000 : Int).tdiv 1000 < 2 ^ 63) ∧
    (-10 ^ 9 < (1608309835000 : Int).tmod 1000 * 1000000 ∧
      (1608309835000 : Int).tmod 1000 * 1000000 < 10 ^ 9) ∧
    ((0 : Int) ≤ 1608309835000 →
      (1608309835000 : Int).tdiv 1000 = 1608309835000 / 1000 ∧
      (1608309835000 : Int).tmod 1000 * 1000000 = 1608309835000 % 1000 * 10 ^ 6)) :=
  ⟨by decide, by decide, by decide,
   C12_eventTime_of_millis sampleSys strictLib
     ⟨NewLineParseHelper (optDefsOf [("eventTime", "1608309835000")]), 0, 0⟩
     ⟨NewLineParseHelper (optDefsOf [("Time", "1608309835000")]), 0, 0⟩
     (NewLineData ['x']) (NewLineData ['x']) 1608309835000 (by decide) (by decide)
     (by decide) (by decide) (by decide) (by decide)⟩

end Piper
